import Mathlib

/-!
Verification of the dynamic-baml core: the dictionary-to-BAML schema
generator (schema_generator.py) and the response normalizer
(baml_executor.py), shallowly embedded over a model of Python values.
Strings are modelled as Lean strings restricted to the ASCII behaviour
of the Python string methods actually used by the source.
-/

namespace DynBaml

/-- Python whitespace set: the characters stripped by str.strip() and matched
by the regex whitespace class, restricted to ASCII. -/
def pySpace (c : Char) : Bool :=
  c = ' ' || c = '\t' || c = '\n' || c = '\r' || c = '\x0b' || c = '\x0c'

/-- ASCII lowercase letter test. -/
def isLowerCh (c : Char) : Bool := 'a' ≤ c && c ≤ 'z'

/-- ASCII uppercase letter test. -/
def isUpperCh (c : Char) : Bool := 'A' ≤ c && c ≤ 'Z'

/-- ASCII letter test. -/
def isAlphaCh (c : Char) : Bool := isLowerCh c || isUpperCh c

/-- ASCII digit test. -/
def isDigitCh (c : Char) : Bool := '0' ≤ c && c ≤ '9'

/-- ASCII word character, the regex class used by the executor's patterns. -/
def isWordCh (c : Char) : Bool := isAlphaCh c || isDigitCh c || c = '_'

/-- Uppercase one ASCII character, as str.upper does. -/
def upCh (c : Char) : Char :=
  if isLowerCh c then Char.ofNat (c.toNat - 32) else c

/-- Lowercase one ASCII character, as str.lower does. -/
def lowCh (c : Char) : Char :=
  if isUpperCh c then Char.ofNat (c.toNat + 32) else c

/-- str.upper restricted to ASCII. -/
def pyUpper (s : String) : String := String.mk (s.data.map upCh)

/-- str.lower restricted to ASCII. -/
def pyLower (s : String) : String := String.mk (s.data.map lowCh)

/-- Strip Python whitespace from both ends of a character list. -/
def stripChars (l : List Char) : List Char :=
  ((l.dropWhile pySpace).reverse.dropWhile pySpace).reverse

/-- str.strip() with no argument. -/
def pyStrip (s : String) : String := String.mk (stripChars s.data)

/-- str.title restricted to ASCII: a letter is uppercased when the previous
character is not a letter, lowercased otherwise; the boolean argument
records whether the previous character was a letter. -/
def titleChars : Bool → List Char → List Char
  | _, [] => []
  | prevAlpha, c :: rest =>
    if isAlphaCh c then
      (if prevAlpha then lowCh c else upCh c) :: titleChars true rest
    else
      c :: titleChars false rest

/-- str.title restricted to ASCII. -/
def pyTitle (s : String) : String := String.mk (titleChars false s.data)

/-- str.replace with single-character pattern and replacement, which
substitutes every occurrence. -/
def replaceCh (a b : Char) (s : String) : String :=
  String.mk (s.data.map (fun c => if c = a then b else c))

/-- Join a list of strings with a separator, as Python sep.join does. -/
def strJoin (sep : String) : List String → String
  | [] => ""
  | [x] => x
  | x :: y :: rest => x ++ sep ++ strJoin sep (y :: rest)

/-- Split a character list on a separator, keeping empty pieces, as
Python str.split(sep) does. -/
def splitCh (sep : Char) : List Char → List (List Char)
  | [] => [[]]
  | c :: rest =>
    match splitCh sep rest with
    | [] => [[c]]
    | h :: t => if c = sep then [] :: h :: t else (c :: h) :: t

/-- Python text.split with a one-character separator. -/
def pySplit (sep : Char) (s : String) : List String :=
  (splitCh sep s.data).map String.mk

/-- Split at the first occurrence of a separator, as str.split(sep, 1)
does when the separator occurs; none when it does not occur. -/
def splitFirstCh (sep : Char) : List Char → Option (List Char × List Char)
  | [] => Option.none
  | c :: rest =>
    if c = sep then Option.some ([], rest)
    else
      match splitFirstCh sep rest with
      | Option.none => Option.none
      | Option.some (a, b) => Option.some (c :: a, b)

/-- Model of the Python runtime values that can appear in a schema
dictionary: None, booleans, integers, strings, lists, and
string-keyed mappings in insertion order. -/
inductive PyValue where
  | none
  | bool (b : Bool)
  | int (n : Int)
  | str (s : String)
  | list (elems : List PyValue)
  | dict (fields : List (String × PyValue))

mutual

/-- Structural size of a Python value, used as recursion fuel for the
embedding of the mutually recursive generator. -/
def pySize : PyValue → Nat
  | .none => 1
  | .bool _ => 1
  | .int _ => 1
  | .str _ => 1
  | .list xs => 1 + pySizeL xs
  | .dict fs => 1 + pySizeF fs

/-- Structural size of a list of Python values. -/
def pySizeL : List PyValue → Nat
  | [] => 1
  | x :: r => 1 + pySize x + pySizeL r

/-- Structural size of the field list of a Python mapping. -/
def pySizeF : List (String × PyValue) → Nat
  | [] => 1
  | (_, x) :: r => 1 + pySize x + pySizeF r

end

/-- Name of the Python type of a value, as printed in error messages. -/
def pyTypeName : PyValue → String
  | .none => "NoneType"
  | .bool _ => "bool"
  | .int _ => "int"
  | .str _ => "str"
  | .list _ => "list"
  | .dict _ => "dict"

/-- Python truthiness of a value. -/
def pyTruthyVal : PyValue → Bool
  | .none => false
  | .bool b => b
  | .int n => n != 0
  | .str s => s ≠ ""
  | .list l => !l.isEmpty
  | .dict d => !d.isEmpty

/-- dict.get: first binding of the key in the association list. -/
def dictGet (d : List (String × PyValue)) (k : String) : Option PyValue :=
  (d.find? (fun p => p.1 == k)).map Prod.snd

/-- Python key-membership test for a mapping. -/
def dictHas (d : List (String × PyValue)) (k : String) : Bool :=
  (dictGet d k).isSome

/-- Test for the None value. -/
def isNoneV : PyValue → Bool
  | .none => true
  | _ => false

/-- Exceptions that can arise inside the generator before the top-level
handler wraps them: an explicitly raised SchemaGenerationError, a
TypeError, an AttributeError, or exhaustion of the recursion fuel used by
the embedding (never reached at the canonical fuel, see the lemmas). -/
inductive PyErr where
  | schemaGen (message : String)
  | typeErr (message : String)
  | attrErr (message : String)
  | fuel
deriving DecidableEq

/-- The str() rendering of an internal exception, used by the wrapper. -/
def pyErrStr : PyErr → String
  | .schemaGen m => m
  | .typeErr m => m
  | .attrErr m => m
  | .fuel => "recursion fuel exhausted"

/-- The SchemaGenerationError raised by generate_schema, carrying the
message and the offending schema dictionary. -/
structure SGError where
  message : String
  schemaDict : PyValue

/-- The synonym table of _map_basic_type. -/
def typeMapping : List (String × String) :=
  [("string", "string"), ("str", "string"),
   ("int", "int"), ("integer", "int"),
   ("float", "float"), ("double", "float"),
   ("bool", "bool"), ("boolean", "bool")]

/-- _map_basic_type: look the value up in the synonym table, defaulting to
string; dict.get raises TypeError on unhashable keys (lists, dicts),
and any other hashable non-string key misses the table. -/
def mapBasicType : PyValue → Except PyErr String
  | .str s => .ok (((typeMapping.find? (fun p => p.1 == s)).map Prod.snd).getD ("string"))
  | .list _ => .error (.typeErr ("unhashable type: 'list'"))
  | .dict _ => .error (.typeErr ("unhashable type: 'dict'"))
  | _ => .ok ("string")

/-- _parse_field_definition: unwrap an optionality marker, then classify as
enum reference, basic type, array, nested class reference, or error.
Returns the BAML type string and the truthiness of the optional flag. -/
def parseFieldDefinition (fieldDef : PyValue) (fieldName : String) :
    Except PyErr (String × Bool) :=
  let unwrapped : PyValue × Bool :=
    match fieldDef with
    | .dict d =>
      if dictHas d ("optional") then
        (match dictGet d ("type") with
         | Option.some t => t
         | Option.none => fieldDef,
         pyTruthyVal ((dictGet d ("optional")).getD .none))
      else (fieldDef, false)
    | _ => (fieldDef, false)
  let fd := unwrapped.1
  let opt := unwrapped.2
  match fd with
  | .dict d =>
    match dictGet d ("type") with
    | Option.some (.str s) =>
      if s = "enum" then .ok (pyTitle fieldName ++ "Enum", opt)
      else .ok (pyTitle fieldName ++ "Class", opt)
    | _ => .ok (pyTitle fieldName ++ "Class", opt)
  | .str s =>
    match mapBasicType (.str s) with
    | .ok t => .ok (t, opt)
    | .error e => .error e
  | .list xs =>
    match xs with
    | [x] =>
      match mapBasicType x with
      | .ok t => .ok (t ++ "[]", opt)
      | .error e => .error e
    | _ => .error (.schemaGen ("Unknown field definition type: <class 'list'>"))
  | other => .error (.schemaGen ("Unknown field definition type: <class '" ++ pyTypeName other ++ "'>"))

/-- The indented field line emitted for one field, with the optional
marker appended when the flag is set. -/
def lineRender (f t : String) (opt : Bool) : String :=
  if opt then "  " ++ f ++ " " ++ t ++ "?" else "  " ++ f ++ " " ++ t

/-- The first loop of _generate_class: one line per non-None field, in
declaration order, raising on the first malformed field specification. -/
def genFieldLines : List (String × PyValue) → Except PyErr (List String)
  | [] => .ok []
  | (f, fd) :: rest =>
    if isNoneV fd then genFieldLines rest
    else
      match parseFieldDefinition fd f with
      | .error e => .error e
      | .ok (t, opt) =>
        match genFieldLines rest with
        | .error e => .error e
        | .ok others => .ok (lineRender f t opt :: others)

/-- Python iteration over a value: lists yield their elements, strings
yield their characters as one-character strings, mappings yield their
keys; everything else raises TypeError. -/
def iterElems : PyValue → Except PyErr (List PyValue)
  | .list xs => .ok xs
  | .str s => .ok (s.data.map (fun c => .str (String.mk [c])))
  | .dict d => .ok (d.map (fun p => .str p.1))
  | other => .error (.typeErr ("'" ++ pyTypeName other ++ "' object is not iterable"))

/-- The enum member emitted for one permitted value by
_generate_nested_classes: value.upper() with every hyphen and every
space replaced by an underscore. -/
def enumValueNorm (v : String) : String :=
  replaceCh ' ' '_' (replaceCh '-' '_' (pyUpper v))

/-- Apply the enum member normalization to an iterated element, raising
AttributeError when the element is not a string. -/
def enumTok : PyValue → Except PyErr String
  | .str v => .ok (enumValueNorm v)
  | other => .error (.attrErr ("'" ++ pyTypeName other ++ "' object has no attribute 'upper'"))

/-- The body lines of an enum unit, one per iterated value. -/
def enumBody : List PyValue → Except PyErr String
  | [] => .ok ""
  | v :: rest =>
    match enumTok v with
    | .error e => .error e
    | .ok t =>
      match enumBody rest with
      | .error e => .error e
      | .ok r => .ok ("  " ++ t ++ "\n" ++ r)

/-- The enum branch of _generate_nested_classes: emit an enum unit named
from the titlecased field name, with one normalized member per value. -/
def genEnumCode (d : List (String × PyValue)) (fieldName : String) :
    Except PyErr String :=
  match iterElems ((dictGet d ("values")).getD (PyValue.list [])) with
  | .error e => .error e
  | .ok vs =>
    match enumBody vs with
    | .error e => .error e
    | .ok body => .ok ("enum " ++ pyTitle fieldName ++ "Enum \x7b\n" ++ body ++ "\x7d\n")

/-- A pending task of the recursive generator: emit a class from a field
mapping, or emit the nested units of one field specification. -/
inductive GenTask where
  | cls (fields : List (String × PyValue)) (className : String)
  | nested (fieldDef : PyValue) (fieldName : String)

/-- The second loop of _generate_class, parametric in the recursive call:
generate nested code for each non-None field in order, threading the
dedup state and keeping only non-empty code fragments. -/
def nestedLoop (g : PyValue → String → List String → Except PyErr (String × List String)) :
    List (String × PyValue) → List String → Except PyErr (List String × List String)
  | [], seen => .ok ([], seen)
  | (f, fd) :: rest, seen =>
    if isNoneV fd then nestedLoop g rest seen
    else
      match g fd f seen with
      | .error e => .error e
      | .ok (code, seen1) =>
        match nestedLoop g rest seen1 with
        | .error e => .error e
        | .ok (codes, seen2) =>
          if code = "" then .ok (codes, seen2) else .ok (code :: codes, seen2)

/-- The mutual recursion of _generate_class and _generate_nested_classes,
driven by a fuel counter so that the definition is structural. The state
is the generated-classes dedup set. -/
def gen : Nat → GenTask → List String → Except PyErr (String × List String)
  | 0, _, _ => .error .fuel
  | Nat.succ n, .cls fields className, seen =>
    if seen.contains className then .ok ("", seen)
    else
      match genFieldLines fields with
      | .error e => .error e
      | .ok flines =>
        match nestedLoop (fun fd f s => gen n (.nested fd f) s) fields (className :: seen) with
        | .error e => .error e
        | .ok (codes, seen2) =>
          let block := strJoin "\n" (("class " ++ className ++ " \x7b") :: flines ++ ["\x7d"])
          if codes.isEmpty then .ok (block, seen2)
          else .ok (strJoin "\n" codes ++ "\n\n" ++ block, seen2)
  | Nat.succ n, .nested fd fieldName, seen =>
    match fd with
    | PyValue.dict d =>
      match dictGet d ("type") with
      | Option.none => gen n (.cls d (pyTitle fieldName ++ "Class")) seen
      | Option.some (PyValue.str s) =>
        if s = "enum" then
          match genEnumCode d fieldName with
          | .error e => .error e
          | .ok code => .ok (code, seen)
        else .ok ("", seen)
      | Option.some (PyValue.dict t) => gen n (.cls t (pyTitle fieldName ++ "Class")) seen
      | Option.some _ => .ok ("", seen)
    | _ => .ok ("", seen)

/-- generate_schema: clear the dedup state, run the recursive generator on
the top-level mapping, and wrap any exception into a
SchemaGenerationError carrying the offending dictionary; a non-mapping
input fails when .items() is looked up. -/
def generateSchema (schemaDict : PyValue) (schemaName : String) :
    Except SGError String :=
  match schemaDict with
  | PyValue.dict d =>
    match gen (pySize schemaDict) (.cls d schemaName) [] with
    | .ok (code, _) => .ok code
    | .error e => .error ⟨"Failed to generate BAML schema: " ++ pyErrStr e, schemaDict⟩
  | _ =>
    .error ⟨"Failed to generate BAML schema: '" ++ pyTypeName schemaDict ++
      "' object has no attribute 'items'", schemaDict⟩

/-- Successful result of a generator run, for decidable statements that do
not compare PyValue payloads. -/
def okS (r : Except SGError String) : Option String :=
  match r with
  | .ok s => Option.some s
  | .error _ => Option.none

/-- Error message of a failed generator run. -/
def errS (r : Except SGError String) : Option String :=
  match r with
  | .ok _ => Option.none
  | .error e => Option.some e.message

example :
    okS (generateSchema (PyValue.dict [("name", PyValue.str "string"), ("age", PyValue.str "int")]) ("Person")) =
      Option.some ("class Person \x7b\n  name string\n  age int\n\x7d") := by decide

example :
    okS (generateSchema (PyValue.dict [("status", PyValue.dict [("type", PyValue.str "enum"), ("values", PyValue.list [PyValue.str "done!", PyValue.str "in-progress"])])]) ("Task")) =
      Option.some ("enum StatusEnum \x7b\n  DONE!\n  IN_PROGRESS\n\x7d\n\n\nclass Task \x7b\n  status StatusEnum\n\x7d") := by decide

/-! Model of Python JSON values and json.loads, as used by the response
normalizer in baml_executor.py. Floats are carried as their source
lexeme: no floating-point arithmetic is performed anywhere in the core. -/

/-- A decoded JSON document (also used as the model of the Python value
returned by parse_response). -/
inductive Json where
  | null
  | bool (b : Bool)
  | int (n : Int)
  | float (lexeme : String)
  | str (s : String)
  | arr (elems : List Json)
  | obj (members : List (String × Json))

/-- Decimal digits of a natural number, most significant first; the first
argument is recursion fuel, always called with fuel above the number. -/
def natDigitsAux : Nat → Nat → List Char
  | 0, _ => []
  | fuel + 1, n => if n = 0 then [] else natDigitsAux fuel (n / 10) ++ [Char.ofNat (48 + n % 10)]

/-- Decimal rendering of a natural number. -/
def natRender (n : Nat) : String :=
  if n = 0 then "0" else String.mk (natDigitsAux (n + 1) n)

/-- Decimal rendering of an integer. -/
def intRender : Int → String
  | Int.ofNat n => natRender n
  | Int.negSucc n => "-" ++ natRender (n + 1)

mutual

/-- Canonical rendering of a JSON value, used to state concrete results
decidably without an equality instance on the nested inductive. -/
def jRender : Json → String
  | .null => "null"
  | .bool true => "true"
  | .bool false => "false"
  | .int n => intRender n
  | .float lex => "float:" ++ lex
  | .str s => "\"" ++ s ++ "\""
  | .arr xs => "[" ++ jRenderList xs ++ "]"
  | .obj ms => "\x7b" ++ jRenderMembers ms ++ "\x7d"

/-- Rendering of array elements, comma separated. -/
def jRenderList : List Json → String
  | [] => ""
  | [x] => jRender x
  | x :: y :: rest => jRender x ++ ", " ++ jRenderList (y :: rest)

/-- Rendering of object members, comma separated. -/
def jRenderMembers : List (String × Json) → String
  | [] => ""
  | [(k, v)] => "\"" ++ k ++ "\": " ++ jRender v
  | (k, v) :: m :: rest => "\"" ++ k ++ "\": " ++ jRender v ++ ", " ++ jRenderMembers (m :: rest)

end

/-- Insert with Python dict semantics: an existing key keeps its position
and takes the new value, a new key is appended. -/
def upsertJ (k : String) (v : Json) : List (String × Json) → List (String × Json)
  | [] => [(k, v)]
  | (k0, v0) :: rest => if k0 = k then (k0, v) :: rest else (k0, v0) :: upsertJ k v rest

/-- JSON whitespace skipped by the Python decoder between tokens. -/
def jsonWs (c : Char) : Bool := c = ' ' || c = '\t' || c = '\n' || c = '\r'

/-- Hexadecimal digit value. -/
def hexVal (c : Char) : Option Nat :=
  if '0' ≤ c && c ≤ '9' then Option.some (c.toNat - 48)
  else if 'a' ≤ c && c ≤ 'f' then Option.some (c.toNat - 87)
  else if 'A' ≤ c && c ≤ 'F' then Option.some (c.toNat - 55)
  else Option.none

/-- Parse the remainder of a JSON string literal after the opening quote,
with the escape sequences and the strict rejection of raw control
characters of the Python decoder; returns the content and the suffix
after the closing quote. -/
def parseJStr : List Char → Option (List Char × List Char)
  | [] => Option.none
  | '"' :: rest => Option.some ([], rest)
  | '\\' :: rest =>
    match rest with
    | '"' :: r => (parseJStr r).map (fun p => ('"' :: p.1, p.2))
    | '\\' :: r => (parseJStr r).map (fun p => ('\\' :: p.1, p.2))
    | '/' :: r => (parseJStr r).map (fun p => ('/' :: p.1, p.2))
    | 'b' :: r => (parseJStr r).map (fun p => ('\x08' :: p.1, p.2))
    | 'f' :: r => (parseJStr r).map (fun p => ('\x0c' :: p.1, p.2))
    | 'n' :: r => (parseJStr r).map (fun p => ('\n' :: p.1, p.2))
    | 'r' :: r => (parseJStr r).map (fun p => ('\r' :: p.1, p.2))
    | 't' :: r => (parseJStr r).map (fun p => ('\t' :: p.1, p.2))
    | 'u' :: a :: b :: c :: d :: r =>
      match hexVal a, hexVal b, hexVal c, hexVal d with
      | Option.some ha, Option.some hb, Option.some hc, Option.some hd =>
        (parseJStr r).map (fun p => (Char.ofNat (((ha * 16 + hb) * 16 + hc) * 16 + hd) :: p.1, p.2))
      | _, _, _, _ => Option.none
    | _ => Option.none
  | c :: rest =>
    if c.toNat < 32 then Option.none
    else (parseJStr rest).map (fun p => (c :: p.1, p.2))

/-- Longest run of decimal digits at the head of the list. -/
def takeDigits : List Char → (List Char × List Char)
  | [] => ([], [])
  | c :: rest =>
    if isDigitCh c then
      match takeDigits rest with
      | (ds, r) => (c :: ds, r)
    else ([], c :: rest)

/-- Natural number denoted by a digit run. -/
def digitsToNat (ds : List Char) : Nat :=
  ds.foldl (fun acc c => acc * 10 + (c.toNat - 48)) 0

/-- Parse a JSON number at the head of the input following the Python
number grammar: optional minus; zero or a nonzero-led digit run; then an
optional fraction and an optional exponent, each taken only when complete.
An integer lexeme decodes to an integer, anything else keeps its lexeme. -/
def parseNumAt (l : List Char) : Option (Json × List Char) :=
  let (neg, afterSign) :=
    match l with
    | '-' :: r => (true, r)
    | _ => (false, l)
  match afterSign with
  | c :: rest =>
    if ¬ isDigitCh c then Option.none
    else
      let (intDigits, afterInt) :=
        if c = '0' then ([c], rest)
        else
          match takeDigits rest with
          | (ds, r) => (c :: ds, r)
      let (fracPart, afterFrac) :=
        match afterInt with
        | '.' :: r =>
          match takeDigits r with
          | ([], _) => (([] : List Char), afterInt)
          | (ds, r2) => ('.' :: ds, r2)
        | _ => (([] : List Char), afterInt)
      let (expPart, afterExp) :=
        match afterFrac with
        | e :: r =>
          if e = 'e' ∨ e = 'E' then
            match r with
            | s :: r2 =>
              if s = '+' ∨ s = '-' then
                match takeDigits r2 with
                | ([], _) => (([] : List Char), afterFrac)
                | (ds, r3) => (e :: s :: ds, r3)
              else
                match takeDigits r with
                | ([], _) => (([] : List Char), afterFrac)
                | (ds, r3) => (e :: ds, r3)
            | [] => (([] : List Char), afterFrac)
          else (([] : List Char), afterFrac)
        | [] => (([] : List Char), afterFrac)
      if fracPart.isEmpty ∧ expPart.isEmpty then
        let n : Int := Int.ofNat (digitsToNat intDigits)
        Option.some (Json.int (if neg then -n else n), afterInt)
      else
        let lex := (if neg then "-" else "") ++ String.mk (intDigits ++ fracPart ++ expPart)
        Option.some (Json.float lex, afterExp)
  | [] => Option.none

mutual

/-- Parse one JSON value at the head of the input, fuel-driven; mirrors
the Python decoder including its acceptance of NaN and Infinity. -/
def parseVal : Nat → List Char → Option (Json × List Char)
  | 0, _ => Option.none
  | _ + 1, 't' :: 'r' :: 'u' :: 'e' :: r => Option.some (Json.bool true, r)
  | _ + 1, 'f' :: 'a' :: 'l' :: 's' :: 'e' :: r => Option.some (Json.bool false, r)
  | _ + 1, 'n' :: 'u' :: 'l' :: 'l' :: r => Option.some (Json.null, r)
  | _ + 1, 'N' :: 'a' :: 'N' :: r => Option.some (Json.float "NaN", r)
  | _ + 1, 'I' :: 'n' :: 'f' :: 'i' :: 'n' :: 'i' :: 't' :: 'y' :: r =>
    Option.some (Json.float "Infinity", r)
  | _ + 1, '-' :: 'I' :: 'n' :: 'f' :: 'i' :: 'n' :: 'i' :: 't' :: 'y' :: r =>
    Option.some (Json.float "-Infinity", r)
  | _ + 1, '"' :: r =>
    (parseJStr r).map (fun p => (Json.str (String.mk p.1), p.2))
  | n + 1, '\x7b' :: r => parseObjMembers n (r.dropWhile jsonWs) []
  | n + 1, '[' :: r => parseArrElems n (r.dropWhile jsonWs) []
  | _ + 1, l => parseNumAt l

/-- Parse the members of an object after its opening brace (whitespace
already skipped), accumulating with dict-update semantics. -/
def parseObjMembers : Nat → List Char → List (String × Json) → Option (Json × List Char)
  | 0, _, _ => Option.none
  | _ + 1, '\x7d' :: r, acc => if acc.isEmpty then Option.some (Json.obj [], r) else Option.none
  | n + 1, '"' :: r, acc =>
    match parseJStr r with
    | Option.none => Option.none
    | Option.some (k, r1) =>
      match (r1.dropWhile jsonWs) with
      | ':' :: r2 =>
        match parseVal n (r2.dropWhile jsonWs) with
        | Option.none => Option.none
        | Option.some (v, r3) =>
          let acc1 := upsertJ (String.mk k) v acc
          match (r3.dropWhile jsonWs) with
          | ',' :: r4 => parseObjMembers n (r4.dropWhile jsonWs) acc1
          | '\x7d' :: r4 => Option.some (Json.obj acc1, r4)
          | _ => Option.none
      | _ => Option.none
  | _ + 1, _, _ => Option.none

/-- Parse the elements of an array after its opening bracket (whitespace
already skipped). -/
def parseArrElems : Nat → List Char → List Json → Option (Json × List Char)
  | 0, _, _ => Option.none
  | _ + 1, ']' :: r, acc => if acc.isEmpty then Option.some (Json.arr [], r) else Option.none
  | n + 1, l, acc =>
    match parseVal n l with
    | Option.none => Option.none
    | Option.some (v, r1) =>
      match (r1.dropWhile jsonWs) with
      | ',' :: r2 => parseArrElems n (r2.dropWhile jsonWs) (acc ++ [v])
      | ']' :: r2 => Option.some (Json.arr (acc ++ [v]), r2)
      | _ => Option.none

end

/-- json.loads: decode the whole input as one document, allowing only
surrounding whitespace; returns none where Python raises JSONDecodeError. -/
def loads (s : String) : Option Json :=
  let l := s.data.dropWhile jsonWs
  match parseVal (l.length + 1) l with
  | Option.some (j, rest) =>
    if (rest.dropWhile jsonWs).isEmpty then Option.some j else Option.none
  | Option.none => Option.none

example : (loads ("\x7b\"x\": 1\x7d")).map jRender = Option.some ("\x7b\"x\": 1\x7d") := by decide
example : (loads ("\x7bnope\x7d")).isSome = false := by decide
example : (loads ("  \x7b\"a\": [1, 2.5, true, null, \"s\"]\x7d ")).map jRender =
    Option.some ("\x7b\"a\": [1, float:2.5, true, null, \"s\"]\x7d") := by decide
example : (loads ("\x7b\"a\": 1,\x7d")).isSome = false := by decide
example : (loads ("01")).isSome = false := by decide

/-! Model of the three extraction regexes of _extract_json_from_response.
Each pattern is deterministic once the greedy/backtracking interplay is
resolved: a whitespace run followed by a distinct required character is a
maximal skip, and a non-greedy brace body extends to the first closing
brace whose required suffix matches. -/

/-- The backquote character of a code fence. -/
def tick : Char := '\x60'

/-- Match a literal character sequence at the head, returning the suffix. -/
def stripLead : List Char → List Char → Option (List Char)
  | [], l => Option.some l
  | p :: ps, c :: cs => if c = p then stripLead ps cs else Option.none
  | _ :: _, [] => Option.none

/-- After a candidate closing brace: skip regex whitespace and require a
closing fence, returning the suffix after the fence. -/
def fenceAfter (l : List Char) : Option (List Char) :=
  stripLead [tick, tick, tick] (l.dropWhile pySpace)

/-- Scan for the first closing brace that is followed (after whitespace)
by a closing fence: the non-greedy body of the fenced patterns. Returns
the body before that brace and the suffix after the fence. -/
def bodyToFence : List Char → Option (List Char × List Char)
  | [] => Option.none
  | c :: rest =>
    if c = '\x7d' then
      match fenceAfter rest with
      | Option.some suffix => Option.some ([], suffix)
      | Option.none => (bodyToFence rest).map (fun p => (c :: p.1, p.2))
    else (bodyToFence rest).map (fun p => (c :: p.1, p.2))

/-- Scan for the first closing brace, with no condition on what follows:
the non-greedy body of the bare brace pattern. Returns the body and the
suffix after the brace. -/
def bodyToBrace : List Char → Option (List Char × List Char)
  | [] => Option.none
  | c :: rest =>
    if c = '\x7d' then Option.some ([], rest)
    else (bodyToBrace rest).map (fun p => (c :: p.1, p.2))

/-- The three patterns tried in order by _extract_json_from_response:
a json-tagged fenced block, an untagged fenced block, and a bare
brace-delimited substring. -/
inductive Pat where
  | fencedJson
  | fenced
  | braces

/-- The opening literal of a pattern. -/
def patLead : Pat → List Char
  | .fencedJson => [tick, tick, tick, 'j', 's', 'o', 'n']
  | .fenced => [tick, tick, tick]
  | .braces => []

/-- Attempt one pattern at the head of the input; on success return the
captured group (the brace-delimited text) and the suffix after the
whole match. -/
def patMatchAt (p : Pat) (l : List Char) : Option (List Char × List Char) :=
  match stripLead (patLead p) l with
  | Option.none => Option.none
  | Option.some r1 =>
    let r2 := match p with
      | .braces => r1
      | _ => r1.dropWhile pySpace
    match r2 with
    | '\x7b' :: r3 =>
      let scan := match p with
        | .braces => bodyToBrace r3
        | _ => bodyToFence r3
      scan.map (fun q => ('\x7b' :: q.1 ++ ['\x7d'], q.2))
    | _ => Option.none

/-- re.findall for one pattern: scan left to right, emit each match's
captured group and resume after the match; fuel bounds the scan. -/
def patFindAll (p : Pat) : Nat → List Char → List (List Char)
  | 0, _ => []
  | _ + 1, [] => []
  | n + 1, c :: rest =>
    match patMatchAt p (c :: rest) with
    | Option.some (cap, suffix) => cap :: patFindAll p n suffix
    | Option.none => patFindAll p n rest

/-- All captures of a pattern over a response string. -/
def findallPat (p : Pat) (s : String) : List (List Char) :=
  patFindAll p (s.data.length + 1) s.data

/-- Decode candidate captures in order, returning the first that decodes. -/
def firstDecodable : List (List Char) → Option Json
  | [] => Option.none
  | c :: rest =>
    match loads (String.mk c) with
    | Option.some j => Option.some j
    | Option.none => firstDecodable rest

/-- The pattern loop of _extract_json_from_response: for each pattern in
order, for each of its matches in order, return the first decodable one. -/
def tryPatterns : List Pat → String → Option Json
  | [], _ => Option.none
  | p :: ps, r =>
    match firstDecodable (findallPat p r) with
    | Option.some j => Option.some j
    | Option.none => tryPatterns ps r

/-- _extract_json_from_response: the three patterns in order, then the
entire stripped response as one document. -/
def extractJson (response : String) : Option Json :=
  match tryPatterns [Pat.fencedJson, Pat.fenced, Pat.braces] response with
  | Option.some j => Option.some j
  | Option.none => loads (pyStrip response)

/-- Python truthiness of a float lexeme: false exactly for a zero value. -/
def floatLexTruthy (lex : String) : Bool :=
  lex.data.any (fun c => isDigitCh c && c ≠ '0') || lex.data.any (fun c => c = 'N' || c = 'I')

/-- Python truthiness of a decoded document. -/
def jTruthy : Json → Bool
  | .null => false
  | .bool b => b
  | .int n => n != 0
  | .float lex => floatLexTruthy lex
  | .str s => s ≠ ""
  | .arr l => !l.isEmpty
  | .obj l => !l.isEmpty

/-- _validate_against_schema: require a dictionary, pass the data through
unchanged; the schema is not consulted. -/
def validateAgainstSchema (data : Json) : Except String Json :=
  match data with
  | .obj _ => .ok data
  | _ => .error ("Data must be a dictionary")

/-- Insert with Python dict semantics on string-valued dictionaries. -/
def upsertS (k v : String) : List (String × String) → List (String × String)
  | [] => [(k, v)]
  | (k0, v0) :: rest => if k0 = k then (k0, v) :: rest else (k0, v0) :: upsertS k v rest

/-- The line loop of _parse_structured_text: for each line containing a
colon, split at the first colon, strip and lowercase the key, strip the
value, and record the pair when both are non-empty. -/
def psLoop : List String → List (String × String) → List (String × String)
  | [], acc => acc
  | line :: rest, acc =>
    match splitFirstCh ':' line.data with
    | Option.none => psLoop rest acc
    | Option.some (k, v) =>
      let key := pyLower (pyStrip (String.mk k))
      let val := pyStrip (String.mk v)
      if key ≠ "" ∧ val ≠ "" then psLoop rest (upsertS key val acc)
      else psLoop rest acc

/-- _parse_structured_text: split the text on newlines and run the line
loop on an empty accumulator. -/
def parseStructuredText (text : String) : List (String × String) :=
  psLoop (pySplit '\n' text) []

/-- The ResponseParsingError raised by parse_response, carrying the raw
response and the schema name. -/
structure RPError where
  message : String
  rawResponse : String
  schemaName : String
deriving DecidableEq

/-- The Python dictionary produced by the line-oriented fallback, viewed
as a document of string values. -/
def lineDictJson (raw : String) : Json :=
  Json.obj ((parseStructuredText raw).map (fun p => (p.1, Json.str p.2)))

/-- parse_response: extract a document and validate it when truthy;
otherwise fall back to line-oriented parsing; any exception inside is
wrapped into a ResponseParsingError carrying the raw response and the
schema name. -/
def parseResponse (rawResponse : String) (schemaName : String) : Except RPError Json :=
  match extractJson rawResponse with
  | Option.some j =>
    if jTruthy j then
      match validateAgainstSchema j with
      | .ok d => .ok d
      | .error m =>
        .error ⟨"Failed to parse response for schema '" ++ schemaName ++ "': " ++ m,
          rawResponse, schemaName⟩
    else .ok (lineDictJson rawResponse)
  | Option.none => .ok (lineDictJson rawResponse)

/-- Successful result of parse_response, rendered for decidable concrete
statements. -/
def okR (r : Except RPError Json) : Option String :=
  match r with
  | .ok j => Option.some (jRender j)
  | .error _ => Option.none

example :
    okR (parseResponse ("Here is the result:\n\x60\x60\x60json\n\x7b\"x\": 1\x7d\n\x60\x60\x60\nThanks!") ("S")) =
      Option.some ("\x7b\"x\": 1\x7d") := by decide

example :
    okR (parseResponse ("Name: Alice\nAge: 30\n") ("S")) =
      Option.some ("\x7b\"name\": \"Alice\", \"age\": \"30\"\x7d") := by decide

example : (parseResponse ("42") ("S")).isOk = false := by decide

/-! Model of _parse_baml_schema: the pattern-based extraction of
structural metadata from BAML source text. -/

/-- Metadata recorded for one field of a class unit: the type text after
the colon, stripped, and whether a question mark followed. -/
structure FieldMeta where
  type : String
  optional : Bool
deriving DecidableEq

/-- Metadata recorded for one named unit: a class with its field map, or
an enum with its member list. -/
inductive UnitMeta where
  | cls (fields : List (String × FieldMeta))
  | enm (values : List String)
deriving DecidableEq

/-- Match one block pattern (the keyword, one or more whitespace, a word
name, optional whitespace, an open brace, then the non-greedy non-empty
body up to the first close brace) at the head of the input; returns the
name, the captured body, and the suffix after the match. -/
def matchBlockAt (kw : List Char) (l : List Char) : Option ((String × String) × List Char) :=
  match stripLead kw l with
  | Option.none => Option.none
  | Option.some r1 =>
    match r1 with
    | c :: _ =>
      if ¬ pySpace c then Option.none
      else
        let r2 := r1.dropWhile pySpace
        let name := r2.takeWhile isWordCh
        if name.isEmpty then Option.none
        else
          match (r2.drop name.length).dropWhile pySpace with
          | '\x7b' :: r5 =>
            let w := r5.takeWhile pySpace
            let rest5 := r5.drop w.length
            let body0 := rest5.takeWhile (fun c => c ≠ '\x7d')
            if body0.isEmpty then
              match rest5, w.reverse with
              | '\x7d' :: r6, c :: _ => Option.some ((String.mk name, String.mk [c]), r6)
              | _, _ => Option.none
            else
              match rest5.drop body0.length with
              | '\x7d' :: r6 => Option.some ((String.mk name, String.mk body0), r6)
              | _ => Option.none
          | _ => Option.none
    | [] => Option.none

/-- re.findall for a block pattern: scan left to right, resume after each
match. -/
def blockFindAll (kw : List Char) : Nat → List Char → List (String × String)
  | 0, _ => []
  | _ + 1, [] => []
  | n + 1, c :: rest =>
    match matchBlockAt kw (c :: rest) with
    | Option.some (blk, suffix) => blk :: blockFindAll kw n suffix
    | Option.none => blockFindAll kw n rest

/-- Match the field pattern (a word name, a colon, optional whitespace, a
non-empty run free of question marks and newlines, an optional question
mark) at the head of a class body; returns name, raw type text, optional
flag, and the suffix after the match. -/
def matchFieldAt (l : List Char) : Option ((String × String × Bool) × List Char) :=
  let name := l.takeWhile isWordCh
  if name.isEmpty then Option.none
  else
    match l.drop name.length with
    | ':' :: r =>
      let w := r.takeWhile pySpace
      let rest := r.drop w.length
      let body0 := rest.takeWhile (fun c => c ≠ '?' ∧ c ≠ '\n')
      if body0.isEmpty then
        match w.reverse.dropWhile (fun c => c = '\n') with
        | [] => Option.none
        | c :: _ =>
          let nls := (w.reverse.takeWhile (fun c => c = '\n')).length
          if nls = 0 then
            match rest with
            | '?' :: r2 => Option.some ((String.mk name, String.mk [c], true), r2)
            | _ => Option.some ((String.mk name, String.mk [c], false), rest)
          else
            Option.some ((String.mk name, String.mk [c], false),
              List.replicate nls '\n' ++ rest)
      else
        match rest.drop body0.length with
        | '?' :: r2 => Option.some ((String.mk name, String.mk body0, true), r2)
        | after => Option.some ((String.mk name, String.mk body0, false), after)
    | _ => Option.none

/-- re.findall for the field pattern over a class body. -/
def fieldFindAll : Nat → List Char → List (String × String × Bool)
  | 0, _ => []
  | _ + 1, [] => []
  | n + 1, c :: rest =>
    match matchFieldAt (c :: rest) with
    | Option.some (f, suffix) => f :: fieldFindAll n suffix
    | Option.none => fieldFindAll n rest

/-- Insert with Python dict semantics on unit metadata. -/
def upsertU (k : String) (v : UnitMeta) : List (String × UnitMeta) → List (String × UnitMeta)
  | [] => [(k, v)]
  | (k0, v0) :: rest => if k0 = k then (k0, v) :: rest else (k0, v0) :: upsertU k v rest

/-- Insert with Python dict semantics on field metadata. -/
def upsertFM (k : String) (v : FieldMeta) : List (String × FieldMeta) → List (String × FieldMeta)
  | [] => [(k, v)]
  | (k0, v0) :: rest => if k0 = k then (k0, v) :: rest else (k0, v0) :: upsertFM k v rest

/-- The field map recorded for one class body: every field-pattern match,
the type text stripped, with dict-update accumulation. -/
def fieldDictOf (body : String) : List (String × FieldMeta) :=
  (fieldFindAll (body.data.length + 1) body.data).foldl
    (fun acc f => upsertFM f.1 ⟨pyStrip f.2.1, f.2.2⟩ acc) []

/-- The member list recorded for one enum body: each newline-separated
piece stripped, empty pieces dropped. -/
def enumValuesOf (body : String) : List String :=
  (pySplit '\n' body).filterMap
    (fun v => if pyStrip v = "" then Option.none else Option.some (pyStrip v))

/-- _parse_baml_schema: record a field map for every class-pattern block,
then a member list for every enum-pattern block, into one mapping. -/
def parseBamlSchema (bamlCode : String) : List (String × UnitMeta) :=
  let classes := blockFindAll ['c', 'l', 'a', 's', 's'] (bamlCode.data.length + 1) bamlCode.data
  let enums := blockFindAll ['e', 'n', 'u', 'm'] (bamlCode.data.length + 1) bamlCode.data
  let withClasses := classes.foldl
    (fun acc p => upsertU p.1 (UnitMeta.cls (fieldDictOf p.2)) acc) []
  enums.foldl (fun acc p => upsertU p.1 (UnitMeta.enm (enumValuesOf p.2)) acc) withClasses

example :
    parseBamlSchema ("class Person \x7b\n  name string\n  age int\n\x7d") =
      [("Person", UnitMeta.cls [])] := by decide

example :
    parseBamlSchema ("enum StatusEnum \x7b\n  DONE!\n  IN_PROGRESS\n\x7d\n\n\nclass Task \x7b\n  status StatusEnum\n\x7d") =
      [("Task", UnitMeta.cls []), ("StatusEnum", UnitMeta.enm ["DONE!", "IN_PROGRESS"])] := by decide

example :
    parseBamlSchema ("class S \x7b\n  a:b string\n\x7d") =
      [("S", UnitMeta.cls [("a", ⟨"b string", false⟩)])] := by decide

/-! Specification-side vocabulary and the theorems settling the claims. -/

/-- The rendered text of one class unit: header line, field lines, close. -/
def renderClassBlock (name : String) (lines : List String) : String :=
  strJoin "\n" (("class " ++ name ++ " \x7b") :: lines ++ ["\x7d"])

/-- The keys of the synonym table. -/
def knownTypeTags : List String :=
  ["string", "str", "int", "integer", "float", "double", "bool", "boolean"]

/-- A string absent from the synonym table maps to the string primitive. -/
theorem mapBasicType_unknown (s : String) (h : s ∉ knownTypeTags) :
    mapBasicType (PyValue.str s) = .ok ("string") := by
  have hf : typeMapping.find? (fun p => p.1 == s) = Option.none := by
    rw [List.find?_eq_none]
    intro x hx
    simp only [typeMapping, List.mem_cons, List.not_mem_nil, or_false] at hx
    simp only [knownTypeTags, List.mem_cons, List.not_mem_nil, or_false, not_or] at h
    rcases hx with h1 | h1 | h1 | h1 | h1 | h1 | h1 | h1 <;>
      (subst h1; simp only [beq_iff_eq]; intro hc; subst hc; simp_all)
  simp [mapBasicType, hf]

/-- Boolean test that the first list starts the second. -/
def leadsB : List Char → List Char → Bool
  | [], _ => true
  | _ :: _, [] => false
  | x :: xs, y :: ys => x = y && leadsB xs ys

/-- Boolean test that the first list occurs contiguously in the second. -/
def infixB : List Char → List Char → Bool
  | a, [] => a.isEmpty
  | a, c :: rest => leadsB a (c :: rest) || infixB a rest

/-- A string starting with a character is not empty, even after appending. -/
theorem mk_cons_append_ne (c : Char) (cs : List Char) (t : String) :
    String.mk (c :: cs) ++ t ≠ "" := by
  intro h
  have hd := congrArg String.data h
  simp [String.data_append] at hd

/-- Modelled from the claim statement of C2: uppercase, then collapse each
run of non-alphanumeric characters into a single underscore; the boolean
tracks whether a run is in progress. -/
def collapseNA : List Char → Bool → List Char
  | [], _ => []
  | c :: rest, prevNA =>
    if isAlphaCh c || isDigitCh c then c :: collapseNA rest false
    else if prevNA then collapseNA rest true
    else '_' :: collapseNA rest true

/-- Modelled from the claim statement of C2: the enum member normalization
the claim asserts. -/
def claimEnumNorm (v : String) : String :=
  String.mk (collapseNA (v.data.map upCh) false)

/-- Claim C2 counterexample: for the enum value "done!" the generator emits
the member DONE! (the exclamation mark is kept), while the claim's
normalization would produce DONE_; the claimed member does not occur in
the generated source at all. -/
theorem c2_counterexample :
    okS (generateSchema (PyValue.dict [("status", PyValue.dict
        [("type", PyValue.str "enum"), ("values", PyValue.list [PyValue.str "done!"])])]) ("Task")) =
      Option.some ("enum StatusEnum \x7b\n  DONE!\n\x7d\n\n\nclass Task \x7b\n  status StatusEnum\n\x7d") ∧
    claimEnumNorm ("done!") = "DONE_" ∧
    enumValueNorm ("done!") = "DONE!" ∧
    infixB ("DONE_".data)
      ("enum StatusEnum \x7b\n  DONE!\n\x7d\n\n\nclass Task \x7b\n  status StatusEnum\n\x7d").data = false := by
  refine ⟨by decide, by decide, by decide, by decide⟩

/-- One normalized member line per enum value, concatenated. -/
def enumMemberLines : List String → String
  | [] => ""
  | v :: rest => "  " ++ enumValueNorm v ++ "\n" ++ enumMemberLines rest

/-- The body of an enum unit over string values is the concatenation of
one normalized member line per value. -/
theorem enumBody_strings (vs : List String) :
    enumBody (vs.map PyValue.str) = .ok (enumMemberLines vs) := by
  induction vs with
  | nil => rfl
  | cons v rest ih => simp [enumBody, enumTok, ih, enumMemberLines]

/-- Generation of a one-field enum schema at any sufficient fuel. -/
theorem gen_enum_cls (n : Nat) (f root : String) (vs : List String) :
    gen (n + 2) (GenTask.cls [(f, PyValue.dict
        [("type", PyValue.str "enum"), ("values", PyValue.list (vs.map PyValue.str))])] root) [] =
      .ok ("enum " ++ pyTitle f ++ "Enum \x7b\n" ++ enumMemberLines vs ++ "\x7d\n" ++
        "\n\n" ++ renderClassBlock root ["  " ++ f ++ " " ++ (pyTitle f ++ "Enum")],
        [root]) := by
  have hne : ("enum " ++ pyTitle f ++ "Enum \x7b\n" ++ enumMemberLines vs ++ "\x7d\n") ≠ "" := by
    intro h
    have hd := congrArg String.data h
    simp [String.data_append] at hd
  simp [gen, List.contains, List.elem, genFieldLines, isNoneV, parseFieldDefinition,
    dictGet, dictHas, List.find?, nestedLoop, genEnumCode, enumBody_strings, iterElems,
    pyTruthyVal, hne, renderClassBlock, strJoin, lineRender]

/-- Claim C2 (amended): each permitted enum value is emitted uppercased
with every hyphen and every space individually replaced by an underscore;
other characters are kept verbatim and runs are not collapsed. Stated as
the full output equation for a one-field enum schema, together with the
normalization of the claim's three sample values. -/
theorem c2_amended :
    (∀ (f root : String) (vs : List String),
      generateSchema (PyValue.dict [(f, PyValue.dict
          [("type", PyValue.str "enum"), ("values", PyValue.list (vs.map PyValue.str))])]) root =
        .ok ("enum " ++ pyTitle f ++ "Enum \x7b\n" ++ enumMemberLines vs ++ "\x7d\n" ++
          "\n\n" ++ renderClassBlock root ["  " ++ f ++ " " ++ (pyTitle f ++ "Enum")])) ∧
    enumValueNorm ("in-progress") = "IN_PROGRESS" ∧
    enumValueNorm ("not started") = "NOT_STARTED" ∧
    enumValueNorm ("done!") = "DONE!" := by
  refine ⟨?_, by decide, by decide, by decide⟩
  intro f root vs
  have h2 : 2 ≤ pySize (PyValue.dict [(f, PyValue.dict
      [("type", PyValue.str "enum"), ("values", PyValue.list (vs.map PyValue.str))])]) := by
    simp [pySize, pySizeF]
    omega
  obtain ⟨m, hm⟩ := Nat.exists_eq_add_of_le h2
  simp only [generateSchema]
  rw [hm, Nat.add_comm, gen_enum_cls]

/-- Claim C6: a bare-string field specification absent from the synonym
table compiles without error to a field of the string primitive. -/
theorem c6_unknown_tag_resolves_to_string (f s root : String) (h : s ∉ knownTypeTags) :
    generateSchema (PyValue.dict [(f, PyValue.str s)]) root =
      .ok (renderClassBlock root ["  " ++ f ++ " string"]) := by
  simp only [generateSchema, pySize, pySizeF, pySizeL]
  simp only [gen, List.contains, List.elem, genFieldLines, isNoneV, parseFieldDefinition,
    mapBasicType_unknown s h, nestedLoop, renderClassBlock, strJoin]
  simp
  apply String.ext
  simp [strJoin, lineRender, String.data_append]

/-- Claim C6 witness: the specification value unsupported_type. -/
theorem c6_witness :
    generateSchema (PyValue.dict [("f", PyValue.str "unsupported_type")]) ("Test") =
      .ok (renderClassBlock ("Test") ["  f string"]) :=
  c6_unknown_tag_resolves_to_string ("f") ("unsupported_type") ("Test") (by decide)

/-- Claim C5: an optionality wrapper around an enumeration descriptor. With
two permitted values, compilation raises a SchemaGenerationError instead
of succeeding: the generator never unwraps the optionality marker in
_generate_nested_classes, treats the wrapped enum descriptor as a nested
object, and chokes on its two-element values list. With a single value it
compiles, but emits a spurious class StatusClass built from the enum
descriptor's own keys and never emits the enum StatusEnum unit that the
field line references. -/
theorem c5_wrapped_enum_bug :
    errS (generateSchema (PyValue.dict [("status", PyValue.dict
        [("type", PyValue.dict [("type", PyValue.str "enum"),
          ("values", PyValue.list [PyValue.str "todo", PyValue.str "done"])]),
         ("optional", PyValue.bool true)])]) ("Task")) =
      Option.some ("Failed to generate BAML schema: Unknown field definition type: <class 'list'>") ∧
    okS (generateSchema (PyValue.dict [("status", PyValue.dict
        [("type", PyValue.dict [("type", PyValue.str "enum"),
          ("values", PyValue.list [PyValue.str "todo"])]),
         ("optional", PyValue.bool true)])]) ("Task")) =
      Option.some ("class StatusClass \x7b\n  type string\n  values string[]\n\x7d\n\nclass Task \x7b\n  status StatusEnum?\n\x7d") ∧
    infixB ("enum StatusEnum".data)
      ("class StatusClass \x7b\n  type string\n  values string[]\n\x7d\n\nclass Task \x7b\n  status StatusEnum?\n\x7d").data = false := by
  refine ⟨by decide, by decide, by decide⟩

/-- A field specification built only from primitives, arrays of
primitives, and optionality wrappers around those (no nested objects,
no enumeration descriptors). -/
def simpleSpec : PyValue → Bool
  | .str _ => true
  | .list [PyValue.str _] => true
  | .dict d =>
    match dictGet d ("optional"), dictGet d ("type") with
    | Option.some (PyValue.bool _), Option.some (PyValue.str s) => s != "enum"
    | Option.some (PyValue.bool _), Option.some (PyValue.list [PyValue.str _]) => true
    | _, _ => false
  | _ => false

/-- The field lines the claim predicts: one per non-None field, in
declaration order. -/
def simpleLines : List (String × PyValue) → List String
  | [] => []
  | (f, fd) :: rest =>
    if isNoneV fd then simpleLines rest
    else
      match parseFieldDefinition fd f with
      | .ok (t, o) => lineRender f t o :: simpleLines rest
      | .error _ => simpleLines rest

/-- A simple field specification always classifies without error. -/
theorem parseField_simple_isOk (fd : PyValue) (f : String) (h : simpleSpec fd = true) :
    (parseFieldDefinition fd f).isOk = true := by
  unfold simpleSpec at h
  split at h
  · rfl
  · rfl
  · rename_i d
    split at h
    · rename_i s ho ht
      simp [parseFieldDefinition, dictHas, ho, ht, mapBasicType, Except.isOk, Except.toBool]
    · rename_i x ho ht
      simp [parseFieldDefinition, dictHas, ho, ht, mapBasicType, Except.isOk, Except.toBool]
    · exact absurd h (by decide)
  · exact absurd h (by decide)

/-- The field-line loop over simple (or skipped) specifications produces
exactly the claim's lines. -/
theorem genFieldLines_simple (d : List (String × PyValue))
    (h : ∀ p ∈ d, isNoneV p.2 || simpleSpec p.2) :
    genFieldLines d = .ok (simpleLines d) := by
  induction d with
  | nil => rfl
  | cons p rest ih =>
    obtain ⟨f, fd⟩ := p
    have hmem := h (f, fd) (List.mem_cons_self _ _)
    have hrest := fun q hq => h q (List.mem_cons_of_mem _ hq)
    by_cases hn : isNoneV fd = true
    · simp [genFieldLines, simpleLines, hn, ih hrest]
    · have hs : simpleSpec fd = true := by
        rcases Bool.or_eq_true_iff.mp hmem with h1 | h1
        · exact absurd h1 hn
        · exact h1
      have hok := parseField_simple_isOk fd f hs
      match hp : parseFieldDefinition fd f with
      | .error e => rw [hp] at hok; simp [Except.isOk, Except.toBool] at hok
      | .ok (t, o) => simp [genFieldLines, simpleLines, hn, hp, ih hrest]

/-- A simple field specification generates no nested code and leaves the
dedup state unchanged, at any positive fuel. -/
theorem gen_nested_simple (m : Nat) (fd : PyValue) (f : String) (s : List String)
    (hs : simpleSpec fd = true) :
    gen (m + 1) (.nested fd f) s = .ok ("", s) := by
  unfold simpleSpec at hs
  split at hs
  · rfl
  · rfl
  · rename_i d'
    split at hs
    · rename_i t ho ht
      have hsne : ¬ t = "enum" := by simpa using hs
      simp [gen, ht, hsne]
    · rename_i x ho ht
      simp [gen, ht]
    · exact absurd hs (by decide)
  · exact absurd hs (by decide)

/-- The nested-class loop over simple (or skipped) specifications, for any
step function that emits nothing on simple specifications. -/
theorem nestedLoop_simple (g : PyValue → String → List String → Except PyErr (String × List String))
    (d : List (String × PyValue)) (seen : List String)
    (hg : ∀ fd f s, simpleSpec fd = true → g fd f s = .ok ("", s))
    (h : ∀ p ∈ d, isNoneV p.2 || simpleSpec p.2) :
    nestedLoop g d seen = .ok ([], seen) := by
  induction d generalizing seen with
  | nil => rfl
  | cons p rest ih =>
    obtain ⟨f, fd⟩ := p
    have hmem := h (f, fd) (List.mem_cons_self _ _)
    have hrest := fun q hq => h q (List.mem_cons_of_mem _ hq)
    by_cases hn : isNoneV fd = true
    · simp [nestedLoop, hn, ih seen hrest]
    · have hs : simpleSpec fd = true := by
        rcases Bool.or_eq_true_iff.mp hmem with h1 | h1
        · exact absurd h1 hn
        · exact h1
      simp [nestedLoop, hn, hg fd f seen hs, ih seen hrest]

/-- Every field list has positive structural size. -/
theorem pySizeF_pos (d : List (String × PyValue)) : 1 ≤ pySizeF d := by
  cases d with
  | nil => simp [pySizeF]
  | cons p r => cases p; simp [pySizeF]; omega

/-- One line per surviving field: the claim's line count. -/
theorem simpleLines_length (d : List (String × PyValue))
    (h : ∀ p ∈ d, isNoneV p.2 || simpleSpec p.2) :
    (simpleLines d).length = (d.filter (fun p => !isNoneV p.2)).length := by
  induction d with
  | nil => rfl
  | cons p rest ih =>
    obtain ⟨f, fd⟩ := p
    have hmem := h (f, fd) (List.mem_cons_self _ _)
    have hrest := fun q hq => h q (List.mem_cons_of_mem _ hq)
    by_cases hn : isNoneV fd = true
    · simp [simpleLines, hn, List.filter, ih hrest]
    · have hs : simpleSpec fd = true := by
        rcases Bool.or_eq_true_iff.mp hmem with h1 | h1
        · exact absurd h1 hn
        · exact h1
      have hok := parseField_simple_isOk fd f hs
      match hp : parseFieldDefinition fd f with
      | .error e => rw [hp] at hok; simp [Except.isOk, Except.toBool] at hok
      | .ok (t, o) => simp [simpleLines, hn, hp, List.filter, ih hrest]

/-- Claim C7: an input mapping whose specifications use only primitives,
arrays of primitives, and optionality wrappers (with None fields allowed)
compiles to exactly one class block holding exactly one line per non-None
field, in declaration order; None fields leave no trace. -/
theorem c7_simple_schema (d : List (String × PyValue)) (root : String)
    (h : ∀ p ∈ d, isNoneV p.2 || simpleSpec p.2) :
    generateSchema (PyValue.dict d) root = .ok (renderClassBlock root (simpleLines d)) ∧
    (simpleLines d).length = (d.filter (fun p => !isNoneV p.2)).length := by
  refine ⟨?_, simpleLines_length d h⟩
  have hcls : ∀ m, gen (m + 2) (GenTask.cls d root) [] =
      .ok (renderClassBlock root (simpleLines d), [root]) := by
    intro m
    have step : gen (m + 2) (GenTask.cls d root) [] =
        (if ([] : List String).contains root then .ok ("", ([] : List String))
         else
          match genFieldLines d with
          | .error e => .error e
          | .ok flines =>
            match nestedLoop (fun fd f s => gen (m + 1) (.nested fd f) s) d (root :: []) with
            | .error e => .error e
            | .ok (codes, seen2) =>
              let block := strJoin "\n" (("class " ++ root ++ " \x7b") :: flines ++ ["\x7d"])
              if codes.isEmpty then .ok (block, seen2)
              else .ok (strJoin "\n" codes ++ "\n\n" ++ block, seen2)) := rfl
    rw [step, genFieldLines_simple d h,
      nestedLoop_simple (fun fd f s => gen (m + 1) (.nested fd f) s) d (root :: [])
        (fun fd f s hs => gen_nested_simple m fd f s hs) h]
    simp [renderClassBlock]
  have h2 : 2 ≤ pySize (PyValue.dict d) := by
    have := pySizeF_pos d
    simp [pySize]
    omega
  obtain ⟨m, hm⟩ := Nat.exists_eq_add_of_le h2
  simp only [generateSchema]
  rw [hm, Nat.add_comm, hcls m]

/-- Claim C7 witness: a string field next to a None field. -/
theorem c7_witness :
    generateSchema (PyValue.dict [("a", PyValue.str "string"), ("b", PyValue.none)]) ("Test") =
      .ok ("class Test \x7b\n  a string\n\x7d") ∧
    (simpleLines [("a", PyValue.str "string"), ("b", PyValue.none)]).length = 1 := by
  have h := c7_simple_schema [("a", PyValue.str "string"), ("b", PyValue.none)] ("Test") (by decide)
  refine ⟨?_, ?_⟩
  · rw [h.1]
    exact congrArg Except.ok (by decide)
  · rw [h.2]
    decide

/-- The pair recorded for one line by the claim's description of the
line-oriented fallback: split at the first colon, lowercase and trim the
key, trim the value, keep the pair when both are non-empty. -/
def lineEntry (line : String) : Option (String × String) :=
  match splitFirstCh ':' line.data with
  | Option.none => Option.none
  | Option.some (k, v) =>
    let key := pyLower (pyStrip (String.mk k))
    let val := pyStrip (String.mk v)
    if key ≠ "" ∧ val ≠ "" then Option.some (key, val) else Option.none

/-- The claim's formulation of the fallback result: the recorded pairs of
all lines, accumulated with dict-update semantics. -/
def lineSpecDict (text : String) : List (String × String) :=
  ((pySplit '\n' text).filterMap lineEntry).foldl (fun acc p => upsertS p.1 p.2 acc) []

/-- The line loop agrees with the filter-then-fold formulation from any
starting accumulator. -/
theorem psLoop_filterMap (lines : List String) (acc : List (String × String)) :
    psLoop lines acc =
      (lines.filterMap lineEntry).foldl (fun acc p => upsertS p.1 p.2 acc) acc := by
  induction lines generalizing acc with
  | nil => rfl
  | cons line rest ih =>
    simp only [psLoop, lineEntry, List.filterMap_cons]
    cases hsp : splitFirstCh ':' line.data with
    | none => exact ih acc
    | some kv =>
      obtain ⟨k, v⟩ := kv
      by_cases hkv : pyLower (pyStrip (String.mk k)) ≠ "" ∧ pyStrip (String.mk v) ≠ ""
      · simp only [if_pos hkv, List.foldl_cons]
        exact ih _
      · simp only [if_neg hkv]
        exact ih acc

/-- Characters of every split piece come from the split text. -/
theorem splitCh_subset (sep : Char) (cs : List Char) :
    ∀ l ∈ splitCh sep cs, ∀ c ∈ l, c ∈ cs := by
  induction cs with
  | nil =>
    intro l hl c hc
    simp [splitCh] at hl
    subst hl
    simp at hc
  | cons c0 rest ih =>
    intro l hl c hc
    simp only [splitCh] at hl
    match hs : splitCh sep rest with
    | [] =>
      rw [hs] at hl
      simp at hl
      subst hl
      simp at hc
      simp [hc]
    | h :: t =>
      rw [hs] at hl
      by_cases he : c0 = sep
      · simp only [he, if_true] at hl
        rcases List.mem_cons.mp hl with h1 | h1
        · subst h1; simp at hc
        · have := ih l (by rw [hs]; exact h1) c hc
          exact List.mem_cons_of_mem _ this
      · simp only [he, if_false] at hl
        rcases List.mem_cons.mp hl with h1 | h1
        · subst h1
          rcases List.mem_cons.mp hc with h2 | h2
          · subst h2; exact List.mem_cons_self _ _
          · have := ih h (by rw [hs]; exact List.mem_cons_self _ _) c h2
            exact List.mem_cons_of_mem _ this
        · have := ih l (by rw [hs]; exact List.mem_cons_of_mem _ h1) c hc
          exact List.mem_cons_of_mem _ this

/-- Splitting at a character that does not occur finds nothing. -/
theorem splitFirstCh_none (sep : Char) (l : List Char) (h : ∀ c ∈ l, c ≠ sep) :
    splitFirstCh sep l = Option.none := by
  induction l with
  | nil => rfl
  | cons c rest ih =>
    have hc := h c (List.mem_cons_self _ _)
    simp only [splitFirstCh, hc, if_false]
    rw [ih (fun c' hc' => h c' (List.mem_cons_of_mem _ hc'))]

/-- The line loop ignores every line without a separator. -/
theorem psLoop_skip (lines : List String) (acc : List (String × String))
    (h : ∀ l ∈ lines, splitFirstCh ':' l.data = Option.none) :
    psLoop lines acc = acc := by
  induction lines with
  | nil => rfl
  | cons line rest ih =>
    simp only [psLoop, h line (List.mem_cons_self _ _)]
    exact ih (fun l hl => h l (List.mem_cons_of_mem _ hl))

/-- Claim C8: the line-oriented fallback records, for each line containing
the separator, the pair obtained by splitting at the first colon with the
key lowercased and trimmed and the value trimmed, only when both are
non-empty; and raw text with no colon anywhere yields the empty
dictionary. -/
theorem c8_line_fallback :
    (∀ text : String, parseStructuredText text = lineSpecDict text) ∧
    (∀ text : String, (∀ c ∈ text.data, c ≠ ':') → parseStructuredText text = []) := by
  constructor
  · intro text
    exact psLoop_filterMap (pySplit '\n' text) []
  · intro text h
    have hall : ∀ line ∈ pySplit '\n' text, splitFirstCh ':' line.data = Option.none := by
      intro line hline
      apply splitFirstCh_none
      intro c hc
      apply h
      simp only [pySplit, List.mem_map] at hline
      obtain ⟨l, hl, hml⟩ := hline
      subst hml
      exact splitCh_subset '\n' text.data l hl c hc
    unfold parseStructuredText
    exact psLoop_skip (pySplit '\n' text) [] hall

/-- Claim C8 witness: text with separators on some lines, and text with
none at all. -/
theorem c8_witness :
    parseStructuredText ("Name: Alice\nAge: 30\nnoise\n:  \n") =
      [("name", "Alice"), ("age", "30")] ∧
    parseStructuredText ("no separators here\nat all") = [] := by
  constructor
  · rw [c8_line_fallback.1 ("Name: Alice\nAge: 30\nnoise\n:  \n")]
    decide
  · exact c8_line_fallback.2 ("no separators here\nat all") (by decide)

/-- The raw response and schema name carried by a parse error, when the
result is an error. -/
def errRawName : Except RPError Json → Option (String × String)
  | .error e => Option.some (e.rawResponse, e.schemaName)
  | .ok _ => Option.none

/-- Claim C9: every error raised by parse_response is a
ResponseParsingError carrying the raw response text and the target schema
name, and an extraction that finds nothing is not an error: it falls
through to the line-oriented fallback. -/
theorem c9_error_wrapping :
    (∀ (raw name : String) (e : RPError),
      parseResponse raw name = .error e → e.rawResponse = raw ∧ e.schemaName = name) ∧
    (∀ raw name : String, extractJson raw = Option.none →
      parseResponse raw name = .ok (lineDictJson raw)) := by
  constructor
  · intro raw name e h
    unfold parseResponse at h
    split at h
    · rename_i j hj
      split at h
      · split at h
        · exact absurd h (by simp)
        · rename_i m hm
          have := Except.error.inj h
          subst this
          exact ⟨rfl, rfl⟩
      · exact absurd h (by simp)
    · exact absurd h (by simp)
  · intro raw name h
    unfold parseResponse
    rw [h]

/-- Claim C9 witness: the response 42 decodes to a non-dictionary, whose
ValueError is wrapped into an error carrying the raw text and schema
name; the response hello has no extractable document and parses to the
(empty) line dictionary without error. -/
theorem c9_witness :
    errRawName (parseResponse ("42") ("S")) = Option.some ("42", "S") ∧
    parseResponse ("hello") ("S") = .ok (lineDictJson ("hello")) := by
  constructor
  · have he : parseResponse ("42") ("S") =
        .error ⟨"Failed to parse response for schema 'S': Data must be a dictionary", "42", "S"⟩ := rfl
    have hf := c9_error_wrapping.1 ("42") ("S") _ he
    rw [he]
    simp [errRawName, hf.1, hf.2]
  · exact c9_error_wrapping.2 ("hello") ("S") rfl

/-! Claim C3: the error discipline of generate_schema. -/

/-- Test for a mapping value. -/
def isDictV : PyValue → Bool
  | .dict _ => true
  | _ => false

/-- A runtime shape outside the claim's classification: a boolean, a
number, or a list whose length is not one. -/
def unclassifiedShape : PyValue → Bool
  | .bool _ => true
  | .int _ => true
  | .list xs => xs.length != 1
  | _ => false

/-- All values in a list are strings. -/
def allStrsB : List PyValue → Bool
  | [] => true
  | v :: r =>
    (match v with
     | PyValue.str _ => true
     | _ => false) && allStrsB r

/-- Shape of an optionality wrapper: a boolean optional flag and a
present type key. -/
def wrapOptShape (d : List (String × PyValue)) : Bool :=
  (match dictGet d ("optional") with
   | Option.some (PyValue.bool _) => true
   | _ => false) && dictHas d ("type")

/-- Shape of an enumeration descriptor: type is the string enum, and the
values entry, when present, is a list of strings. -/
def enumShape (d : List (String × PyValue)) : Bool :=
  (match dictGet d ("type") with
   | Option.some (PyValue.str s) => s == "enum"
   | _ => false) &&
  (match dictGet d ("values") with
   | Option.none => true
   | Option.some (PyValue.list vs) => allStrsB vs
   | Option.some _ => false)

mutual

/-- The data-model grammar of field specifications under which generation
never raises: primitive tags, single-element lists of a primitive tag,
enumeration descriptors with string values, nested-object mappings free
of reserved keys, and optionality wrappers around a non-enum primitive
tag, an array, or a nested object. -/
def validSpec : PyValue → Bool
  | .none => false
  | .str _ => true
  | .list xs =>
    match xs with
    | [PyValue.str _] => true
    | _ => false
  | .dict d =>
    if dictHas d ("optional") then wrapOptShape d && validWrapEntries d
    else if dictHas d ("type") then enumShape d
    else validFields d
  | _ => false

/-- Every type entry of a wrapper carries a wrappable specification. -/
def validWrapEntries : List (String × PyValue) → Bool
  | [] => true
  | (k, v) :: rest =>
    (if k = "type" then validWrapped v else true) && validWrapEntries rest

/-- A specification a wrapper may wrap: a primitive tag other than enum,
a single-element array, or a nested-object mapping. -/
def validWrapped : PyValue → Bool
  | .str s => s != "enum"
  | .list xs =>
    match xs with
    | [PyValue.str _] => true
    | _ => false
  | .dict d => !(dictHas d ("type")) && !(dictHas d ("optional")) && validFields d
  | _ => false

/-- Every field of a mapping is None or a valid specification. -/
def validFields : List (String × PyValue) → Bool
  | [] => true
  | (_, v) :: rest => (isNoneV v || validSpec v) && validFields rest

end

/-- An unclassified shape always fails classification. -/
theorem parseField_unclassified_err (fd : PyValue) (f : String)
    (h : unclassifiedShape fd = true) :
    ∃ e, parseFieldDefinition fd f = .error e := by
  cases fd with
  | bool b => exact ⟨_, rfl⟩
  | int n => exact ⟨_, rfl⟩
  | list xs =>
    match xs with
    | [] => exact ⟨_, rfl⟩
    | [x] => simp [unclassifiedShape] at h
    | x :: y :: r => exact ⟨_, rfl⟩
  | none => simp [unclassifiedShape] at h
  | str s => simp [unclassifiedShape] at h
  | dict d => simp [unclassifiedShape] at h

/-- An unclassified shape is never the None value. -/
theorem unclassified_not_none (fd : PyValue) (h : unclassifiedShape fd = true) :
    isNoneV fd = false := by
  cases fd <;> simp_all [unclassifiedShape, isNoneV]

/-- The field-line loop fails as soon as some field is unclassified. -/
theorem genFieldLines_err (d : List (String × PyValue)) (f : String) (fd : PyValue)
    (hmem : (f, fd) ∈ d) (h : unclassifiedShape fd = true) :
    ∃ e, genFieldLines d = .error e := by
  induction d with
  | nil => simp at hmem
  | cons p rest ih =>
    obtain ⟨g, gd⟩ := p
    rcases List.mem_cons.mp hmem with h1 | h1
    · obtain ⟨hg, hgd⟩ := Prod.mk.injEq .. ▸ h1
      subst hg
      subst hgd
      obtain ⟨e, he⟩ := parseField_unclassified_err fd f h
      simp [genFieldLines, unclassified_not_none fd h, he]
    · by_cases hn : isNoneV gd = true
      · obtain ⟨e, he⟩ := ih h1
        simp [genFieldLines, hn, he]
      · match hp : parseFieldDefinition gd g with
        | .error e => exact ⟨e, by simp [genFieldLines, hn, hp]⟩
        | .ok (t, o) =>
          obtain ⟨e, he⟩ := ih h1
          exact ⟨e, by simp [genFieldLines, hn, hp, he]⟩

/-- A pair in a field list is strictly below the list in size. -/
theorem pairMem_pySize (d : List (String × PyValue)) (k : String) (v : PyValue)
    (h : (k, v) ∈ d) : pySize v + 2 ≤ pySizeF d := by
  induction d with
  | nil => simp at h
  | cons p rest ih =>
    obtain ⟨k0, v0⟩ := p
    rcases List.mem_cons.mp h with h1 | h1
    · obtain ⟨hk, hv⟩ := Prod.mk.injEq .. ▸ h1
      subst hv
      have := pySizeF_pos rest
      simp [pySizeF]
      omega
    · have := ih h1
      have h1 : 1 ≤ pySize v0 := by cases v0 <;> simp [pySize]
      simp [pySizeF]
      omega

/-- The entry found by dict.get is a member of the mapping. -/
theorem dictGet_mem (d : List (String × PyValue)) (k : String) (v : PyValue)
    (h : dictGet d k = Option.some v) : (k, v) ∈ d := by
  unfold dictGet at h
  match hf : d.find? (fun p => p.1 == k) with
  | Option.none => rw [hf] at h; simp at h
  | Option.some x =>
    rw [hf] at h
    simp at h
    have hmem := List.mem_of_find?_eq_some hf
    have hkey := List.find?_some hf
    simp at hkey
    obtain ⟨x1, x2⟩ := x
    simp at hkey h
    subst hkey
    subst h
    exact hmem

/-- The wrapped specification found under the type key of a wrapper with
valid entries is wrappable. -/
theorem validWrapEntries_get (d : List (String × PyValue)) (w : PyValue)
    (hv : validWrapEntries d = true) (hg : dictGet d ("type") = Option.some w) :
    validWrapped w = true := by
  induction d with
  | nil => simp [dictGet, List.find?] at hg
  | cons p rest ih =>
    obtain ⟨k, v⟩ := p
    simp only [validWrapEntries, Bool.and_eq_true] at hv
    by_cases hk : k = "type"
    · subst hk
      have hstep : dictGet (("type", v) :: rest) ("type") = Option.some v := by
        simp [dictGet, List.find?]
      rw [hstep] at hg
      have hw2 := Option.some.inj hg
      subst hw2
      have h1 := hv.1
      rw [if_pos rfl] at h1
      exact h1
    · have hbeq : (k == "type") = false := by simpa using hk
      have hstep : dictGet ((k, v) :: rest) ("type") = dictGet rest ("type") := by
        simp [dictGet, List.find?, hbeq]
      rw [hstep] at hg
      exact ih hv.2 hg

/-- A valid specification always classifies without error. -/
theorem parseField_valid_isOk (fd : PyValue) (f : String) (hs : validSpec fd = true) :
    (parseFieldDefinition fd f).isOk = true := by
  cases fd with
  | none => simp [validSpec] at hs
  | str s => simp [parseFieldDefinition, mapBasicType, Except.isOk, Except.toBool]
  | bool b => simp [validSpec] at hs
  | int n => simp [validSpec] at hs
  | list xs =>
    match xs with
    | [PyValue.str x] =>
      simp [parseFieldDefinition, mapBasicType, Except.isOk, Except.toBool]
    | [] => simp [validSpec] at hs
    | [PyValue.none] => simp [validSpec] at hs
    | [PyValue.bool _] => simp [validSpec] at hs
    | [PyValue.int _] => simp [validSpec] at hs
    | [PyValue.list _] => simp [validSpec] at hs
    | [PyValue.dict _] => simp [validSpec] at hs
    | x :: y :: r => simp [validSpec] at hs
  | dict d =>
    simp only [validSpec] at hs
    by_cases ho : dictHas d ("optional") = true
    · rw [if_pos ho] at hs
      simp only [Bool.and_eq_true] at hs
      have hoT : (dictGet d ("optional")).isSome = true := ho
      have hts : dictHas d ("type") = true := by
        have := hs.1
        simp only [wrapOptShape, Bool.and_eq_true] at this
        exact this.2
      obtain ⟨w, hw⟩ := Option.isSome_iff_exists.mp hts
      have hww := validWrapEntries_get d w hs.2 hw
      cases w with
      | str s =>
        simp [parseFieldDefinition, ho, hoT, hw, mapBasicType, Except.isOk, Except.toBool]
      | list xs =>
        match xs with
        | [PyValue.str x] =>
          simp [parseFieldDefinition, ho, hoT, hw, mapBasicType, Except.isOk, Except.toBool]
        | [] => simp [validWrapped] at hww
        | [PyValue.none] => simp [validWrapped] at hww
        | [PyValue.bool _] => simp [validWrapped] at hww
        | [PyValue.int _] => simp [validWrapped] at hww
        | [PyValue.list _] => simp [validWrapped] at hww
        | [PyValue.dict _] => simp [validWrapped] at hww
        | x :: y :: r => simp [validWrapped] at hww
      | dict t =>
        simp only [parseFieldDefinition, ho, hoT, hw]
        match hgt : dictGet t ("type") with
        | Option.none => simp [ho, hoT, hw, hgt, Except.isOk, Except.toBool]
        | Option.some (PyValue.str s) =>
          simp [validWrapped, dictHas, hgt] at hww
        | Option.some (PyValue.none) => simp [validWrapped, dictHas, hgt] at hww
        | Option.some (PyValue.bool _) => simp [validWrapped, dictHas, hgt] at hww
        | Option.some (PyValue.int _) => simp [validWrapped, dictHas, hgt] at hww
        | Option.some (PyValue.list _) => simp [validWrapped, dictHas, hgt] at hww
        | Option.some (PyValue.dict _) => simp [validWrapped, dictHas, hgt] at hww
      | none => simp [validWrapped] at hww
      | bool b => simp [validWrapped] at hww
      | int n => simp [validWrapped] at hww
    · rw [if_neg ho] at hs
      have hoF : (dictGet d ("optional")).isSome = false := by
        simp only [dictHas] at ho
        simpa using ho
      by_cases ht : dictHas d ("type") = true
      · rw [if_pos ht] at hs
        simp only [enumShape, Bool.and_eq_true] at hs
        match hgt : dictGet d ("type") with
        | Option.none => simp [dictHas, hgt] at ht
        | Option.some (PyValue.str s) =>
          have hse : s = "enum" := by
            have := hs.1
            rw [hgt] at this
            simpa using this
          subst hse
          simp [parseFieldDefinition, ho, hoF, hgt, Except.isOk, Except.toBool]
        | Option.some (PyValue.none) => rw [hgt] at hs; simp at hs
        | Option.some (PyValue.bool _) => rw [hgt] at hs; simp at hs
        | Option.some (PyValue.int _) => rw [hgt] at hs; simp at hs
        | Option.some (PyValue.list _) => rw [hgt] at hs; simp at hs
        | Option.some (PyValue.dict _) => rw [hgt] at hs; simp at hs
      · have hgt : dictGet d ("type") = Option.none := by
          cases hx : dictGet d ("type") with
          | none => rfl
          | some w => rw [dictHas, hx] at ht; simp at ht
        simp [parseFieldDefinition, ho, hoF, hgt, Except.isOk, Except.toBool]

/-- The field-line loop succeeds on a valid field list. -/
theorem genFieldLines_valid (d : List (String × PyValue)) (h : validFields d = true) :
    ∃ ls, genFieldLines d = .ok ls := by
  induction d with
  | nil => exact ⟨[], rfl⟩
  | cons p rest ih =>
    obtain ⟨f, fd⟩ := p
    simp only [validFields, Bool.and_eq_true] at h
    obtain ⟨ls, hls⟩ := ih h.2
    by_cases hn : isNoneV fd = true
    · exact ⟨ls, by simp [genFieldLines, hn, hls]⟩
    · have hs : validSpec fd = true := by
        rcases Bool.or_eq_true_iff.mp h.1 with h1 | h1
        · exact absurd h1 hn
        · exact h1
      have hok := parseField_valid_isOk fd f hs
      match hp : parseFieldDefinition fd f with
      | .error e => rw [hp] at hok; simp [Except.isOk, Except.toBool] at hok
      | .ok (t, o) =>
        exact ⟨lineRender f t o :: ls, by simp [genFieldLines, hn, hp, hls]⟩

/-- The enum body succeeds on string values. -/
theorem enumBody_ok (vs : List PyValue) (h : allStrsB vs = true) :
    ∃ b, enumBody vs = .ok b := by
  induction vs with
  | nil => exact ⟨"", rfl⟩
  | cons v rest ih =>
    simp only [allStrsB, Bool.and_eq_true] at h
    obtain ⟨b, hb⟩ := ih h.2
    cases v with
    | str s => exact ⟨"  " ++ enumValueNorm s ++ "\n" ++ b, by simp [enumBody, enumTok, hb]⟩
    | none => simp at h
    | bool _ => simp at h
    | int _ => simp at h
    | list _ => simp at h
    | dict _ => simp at h

/-- Enum-unit emission succeeds on a well-shaped enumeration descriptor. -/
theorem genEnumCode_ok (d : List (String × PyValue)) (f : String)
    (h : enumShape d = true) : ∃ c, genEnumCode d f = .ok c := by
  simp only [enumShape, Bool.and_eq_true] at h
  match hv : dictGet d ("values") with
  | Option.none =>
    exact ⟨"enum " ++ pyTitle f ++ "Enum \x7b\n" ++ "" ++ "\x7d\n",
      by simp [genEnumCode, hv, iterElems, enumBody]⟩
  | Option.some (PyValue.list vs) =>
    have hstrs : allStrsB vs = true := by
      have := h.2
      rw [hv] at this
      exact this
    obtain ⟨b, hb⟩ := enumBody_ok vs hstrs
    exact ⟨"enum " ++ pyTitle f ++ "Enum \x7b\n" ++ b ++ "\x7d\n",
      by simp [genEnumCode, hv, iterElems, hb]⟩
  | Option.some (PyValue.none) => rw [hv] at h; simp at h
  | Option.some (PyValue.bool _) => rw [hv] at h; simp at h
  | Option.some (PyValue.int _) => rw [hv] at h; simp at h
  | Option.some (PyValue.str _) => rw [hv] at h; simp at h
  | Option.some (PyValue.dict _) => rw [hv] at h; simp at h

/-- The nested loop succeeds when the step succeeds on every non-None
member. -/
theorem nestedLoop_ok (g : PyValue → String → List String → Except PyErr (String × List String))
    (d : List (String × PyValue)) (seen : List String)
    (h : ∀ f fd, (f, fd) ∈ d → isNoneV fd = false → ∀ s, ∃ r, g fd f s = .ok r) :
    ∃ r, nestedLoop g d seen = .ok r := by
  induction d generalizing seen with
  | nil => exact ⟨_, rfl⟩
  | cons p rest ih =>
    obtain ⟨f, fd⟩ := p
    by_cases hn : isNoneV fd = true
    · obtain ⟨r, hr⟩ := ih seen (fun f' fd' hm hnn s => h f' fd' (List.mem_cons_of_mem _ hm) hnn s)
      exact ⟨r, by simp [nestedLoop, hn, hr]⟩
    · obtain ⟨⟨c1, s1⟩, h1⟩ :=
        h f fd (List.mem_cons_self _ _) (Bool.not_eq_true _ ▸ hn) seen
      obtain ⟨⟨cs, s2⟩, h2⟩ := ih s1 (fun f' fd' hm hnn s => h f' fd' (List.mem_cons_of_mem _ hm) hnn s)
      by_cases hc : c1 = ""
      · exact ⟨(cs, s2), by simp [nestedLoop, hn, h1, h2, hc]⟩
      · exact ⟨(c1 :: cs, s2), by simp [nestedLoop, hn, h1, h2, hc]⟩

/-- Every value has positive structural size. -/
theorem pySize_pos (v : PyValue) : 1 ≤ pySize v := by
  cases v <;> simp [pySize]

/-- A member of a valid field list is None or valid. -/
theorem validFields_mem (d : List (String × PyValue)) (f : String) (fd : PyValue)
    (hv : validFields d = true) (hm : (f, fd) ∈ d) :
    (isNoneV fd || validSpec fd) = true := by
  induction d with
  | nil => simp at hm
  | cons q rest ih =>
    obtain ⟨qf, qd⟩ := q
    simp only [validFields, Bool.and_eq_true] at hv
    rcases List.mem_cons.mp hm with h1 | h1
    · rw [Prod.mk.injEq] at h1
      obtain ⟨h1a, h1b⟩ := h1
      subst h1b
      exact hv.1
    · exact ih hv.2 h1

/-- Generation succeeds at sufficient fuel on every valid class task and
valid nested task. -/
theorem gen_ok_valid (n : Nat) :
    (∀ d name seen, pySizeF d < n → validFields d = true →
      ∃ r, gen n (GenTask.cls d name) seen = .ok r) ∧
    (∀ fd f seen, pySize fd < n → validSpec fd = true →
      ∃ r, gen n (GenTask.nested fd f) seen = .ok r) := by
  induction n using Nat.strong_induction_on with
  | _ n ih =>
    constructor
    · intro d name seen hsz hv
      match n, hsz with
      | Nat.succ m, hsz =>
        have step : ∀ seen2 : List String, gen (m + 1) (GenTask.cls d name) seen2 =
            (if seen2.contains name then .ok ("", seen2)
             else
              match genFieldLines d with
              | .error e => .error e
              | .ok flines =>
                match nestedLoop (fun fd f s => gen m (.nested fd f) s) d (name :: seen2) with
                | .error e => .error e
                | .ok (codes, seen3) =>
                  let block := strJoin "\n" (("class " ++ name ++ " \x7b") :: flines ++ ["\x7d"])
                  if codes.isEmpty then .ok (block, seen3)
                  else .ok (strJoin "\n" codes ++ "\n\n" ++ block, seen3)) := fun _ => rfl
        by_cases hseen : seen.contains name = true
        · exact ⟨("", seen), by rw [step seen, if_pos hseen]⟩
        · obtain ⟨ls, hls⟩ := genFieldLines_valid d hv
          obtain ⟨⟨codes, s2⟩, hlp⟩ :
              ∃ r, nestedLoop (fun fd f s => gen m (.nested fd f) s) d
                (name :: seen) = .ok r := by
            apply nestedLoop_ok
            intro f fd hmem hnn s
            have hvs : validSpec fd = true := by
              rcases Bool.or_eq_true_iff.mp (validFields_mem d f fd hv hmem) with h1 | h1
              · rw [h1] at hnn; exact absurd hnn (by simp)
              · exact h1
            have hb := pairMem_pySize d f fd hmem
            exact (ih m (by omega)).2 fd f s (by omega) hvs
          rw [step seen, if_neg hseen, hls, hlp]
          by_cases hce : codes.isEmpty = true
          · exact ⟨(strJoin "\n" (("class " ++ name ++ " \x7b") :: ls ++ ["\x7d"]), s2),
              by simp [hce]⟩
          · exact ⟨(strJoin "\n" codes ++ "\n\n" ++
                strJoin "\n" (("class " ++ name ++ " \x7b") :: ls ++ ["\x7d"]), s2),
              by simp [hce]⟩
    · intro fd f seen hsz hvs
      match n, hsz with
      | Nat.succ m, hsz =>
        cases fd with
        | none => exact ⟨_, rfl⟩
        | bool b => exact ⟨_, rfl⟩
        | int k => exact ⟨_, rfl⟩
        | str s => exact ⟨_, rfl⟩
        | list xs => exact ⟨_, rfl⟩
        | dict d =>
          have step : gen (m + 1) (GenTask.nested (PyValue.dict d) f) seen =
              (match dictGet d ("type") with
               | Option.none => gen m (.cls d (pyTitle f ++ "Class")) seen
               | Option.some (PyValue.str s) =>
                 if s = "enum" then
                   match genEnumCode d f with
                   | .error e => .error e
                   | .ok code => .ok (code, seen)
                 else .ok ("", seen)
               | Option.some (PyValue.dict t) => gen m (.cls t (pyTitle f ++ "Class")) seen
               | Option.some _ => .ok ("", seen)) := rfl
          rw [step]
          have hszF : pySize (PyValue.dict d) = 1 + pySizeF d := by simp [pySize]
          simp only [validSpec] at hvs
          by_cases ho : dictHas d ("optional") = true
          · rw [if_pos ho] at hvs
            simp only [Bool.and_eq_true] at hvs
            have hts : dictHas d ("type") = true := by
              have := hvs.1
              simp only [wrapOptShape, Bool.and_eq_true] at this
              exact this.2
            obtain ⟨w, hw⟩ := Option.isSome_iff_exists.mp hts
            have hww := validWrapEntries_get d w hvs.2 hw
            rw [hw]
            cases w with
            | str s =>
              have hsne : ¬ s = "enum" := by simpa [validWrapped] using hww
              exact ⟨("", seen), by simp [hsne]⟩
            | list xs => exact ⟨_, rfl⟩
            | dict t =>
              have hvt : validFields t = true := by
                simp only [validWrapped, Bool.and_eq_true] at hww
                exact hww.2
              have hb := pairMem_pySize d ("type") (PyValue.dict t) (dictGet_mem d _ _ hw)
              have hszT : pySize (PyValue.dict t) = 1 + pySizeF t := by simp [pySize]
              exact (ih m (by omega)).1 t (pyTitle f ++ "Class") seen (by omega) hvt
            | none => simp [validWrapped] at hww
            | bool b => simp [validWrapped] at hww
            | int k => simp [validWrapped] at hww
          · rw [if_neg ho] at hvs
            by_cases ht : dictHas d ("type") = true
            · rw [if_pos ht] at hvs
              match hgt : dictGet d ("type") with
              | Option.none => rw [dictHas, hgt] at ht; simp at ht
              | Option.some (PyValue.str s) =>
                have hse : s = "enum" := by
                  simp only [enumShape, Bool.and_eq_true] at hvs
                  have := hvs.1
                  rw [hgt] at this
                  simpa using this
                subst hse
                obtain ⟨c, hc⟩ := genEnumCode_ok d f hvs
                exact ⟨(c, seen), by simp [hc]⟩
              | Option.some (PyValue.none) =>
                simp only [enumShape, Bool.and_eq_true] at hvs
                rw [hgt] at hvs; simp at hvs
              | Option.some (PyValue.bool _) =>
                simp only [enumShape, Bool.and_eq_true] at hvs
                rw [hgt] at hvs; simp at hvs
              | Option.some (PyValue.int _) =>
                simp only [enumShape, Bool.and_eq_true] at hvs
                rw [hgt] at hvs; simp at hvs
              | Option.some (PyValue.list _) =>
                simp only [enumShape, Bool.and_eq_true] at hvs
                rw [hgt] at hvs; simp at hvs
              | Option.some (PyValue.dict _) =>
                simp only [enumShape, Bool.and_eq_true] at hvs
                rw [hgt] at hvs; simp at hvs
            · rw [if_neg ht] at hvs
              have hgt : dictGet d ("type") = Option.none := by
                cases hx : dictGet d ("type") with
                | none => rfl
                | some w => rw [dictHas, hx] at ht; simp at ht
              rw [hgt]
              exact (ih m (by omega)).1 d (pyTitle f ++ "Class") seen (by omega) hvs

/-- Claim C3 counterexample: inputs composed only of the claim's
classified runtime shapes that nevertheless raise. A single-element list
containing a mapping raises (the unhashable element blows up the synonym
lookup), and an enumeration descriptor with an integer value raises (the
value has no upper method); the claim asserts both compile without
raising. -/
theorem c3_counterexample :
    errS (generateSchema (PyValue.dict [("f", PyValue.list [PyValue.dict []])]) ("S")) =
      Option.some ("Failed to generate BAML schema: unhashable type: 'dict'") ∧
    ([PyValue.dict []] : List PyValue).length = 1 ∧
    errS (generateSchema (PyValue.dict [("g", PyValue.dict
        [("type", PyValue.str "enum"), ("values", PyValue.list [PyValue.int 1])])]) ("S")) =
      Option.some ("Failed to generate BAML schema: 'int' object has no attribute 'upper'") := by
  refine ⟨by decide, by decide, by decide⟩

/-- A classification failure in the field-line loop fails the whole class
generation at any positive fuel and a fresh dedup state. -/
theorem gen_cls_fieldErr (m : Nat) (d : List (String × PyValue)) (name : String) (e : PyErr)
    (he : genFieldLines d = .error e) :
    gen (m + 1) (GenTask.cls d name) [] = .error e := by
  have step : gen (m + 1) (GenTask.cls d name) [] =
      (match genFieldLines d with
       | .error e => .error e
       | .ok flines =>
         match nestedLoop (fun fd f s => gen m (.nested fd f) s) d (name :: []) with
         | .error e => .error e
         | .ok (codes, seen3) =>
           let block := strJoin "\n" (("class " ++ name ++ " \x7b") :: flines ++ ["\x7d"])
           if codes.isEmpty then .ok (block, seen3)
           else .ok (strJoin "\n" codes ++ "\n\n" ++ block, seen3)) := rfl
  rw [step, he]

/-- Claim C3 (amended): generate_schema fails only with a
SchemaGenerationError that carries the offending input; it raises when
the top level is not a mapping and when any top-level field has a
runtime shape outside the classification (a boolean, a number, or a list
of length other than one); and every input whose field specifications
lie in the data-model grammar compiles without raising. -/
theorem c3_amended :
    (∀ (v : PyValue) (name : String) (e : SGError),
      generateSchema v name = .error e → e.schemaDict = v) ∧
    (∀ (v : PyValue) (name : String), isDictV v = false →
      ∃ e, generateSchema v name = .error e) ∧
    (∀ (d : List (String × PyValue)) (name f : String) (fd : PyValue),
      (f, fd) ∈ d → unclassifiedShape fd = true →
      ∃ e, generateSchema (PyValue.dict d) name = .error e) ∧
    (∀ (d : List (String × PyValue)) (name : String), validFields d = true →
      ∃ out, generateSchema (PyValue.dict d) name = .ok out) := by
  refine ⟨?_, ?_, ?_, ?_⟩
  · intro v name e h
    cases v with
    | dict d =>
      simp only [generateSchema] at h
      split at h
      · exact absurd h (by simp)
      · cases Except.error.inj h
        rfl
    | none => cases Except.error.inj h; rfl
    | bool b => cases Except.error.inj h; rfl
    | int k => cases Except.error.inj h; rfl
    | str s => cases Except.error.inj h; rfl
    | list xs => cases Except.error.inj h; rfl
  · intro v name hnd
    cases v with
    | dict d => simp [isDictV] at hnd
    | none => exact ⟨_, rfl⟩
    | bool b => exact ⟨_, rfl⟩
    | int k => exact ⟨_, rfl⟩
    | str s => exact ⟨_, rfl⟩
    | list xs => exact ⟨_, rfl⟩
  · intro d name f fd hmem hunc
    obtain ⟨e, he⟩ := genFieldLines_err d f fd hmem hunc
    have h1 : 1 ≤ pySize (PyValue.dict d) := pySize_pos _
    obtain ⟨m, hm⟩ := Nat.exists_eq_add_of_le h1
    refine ⟨⟨"Failed to generate BAML schema: " ++ pyErrStr e, PyValue.dict d⟩, ?_⟩
    simp only [generateSchema]
    rw [hm, Nat.add_comm, gen_cls_fieldErr m d name e he]
  · intro d name hv
    have hsz : pySizeF d < pySize (PyValue.dict d) := by
      simp [pySize]
    obtain ⟨⟨code, seen2⟩, hg⟩ := (gen_ok_valid (pySize (PyValue.dict d))).1 d name [] hsz hv
    refine ⟨code, ?_⟩
    simp only [generateSchema]
    rw [hg]

/-- Claim C3 witness: a non-mapping top level errors and carries the
input, a bare-number field errors, and a valid mapping compiles. -/
theorem c3_witness :
    (∃ e, generateSchema (PyValue.str "x") ("S") = .error e ∧
      e.schemaDict = PyValue.str "x") ∧
    (∃ e, generateSchema (PyValue.dict [("f", PyValue.int 5)]) ("S") = .error e) ∧
    (∃ out, generateSchema (PyValue.dict [("a", PyValue.str "string")]) ("S") = .ok out) := by
  refine ⟨?_, ?_, ?_⟩
  · exact ⟨⟨"Failed to generate BAML schema: 'str' object has no attribute 'items'",
      PyValue.str "x"⟩, rfl, c3_amended.1 (PyValue.str "x") ("S") _ rfl⟩
  · exact c3_amended.2.2.1 [("f", PyValue.int 5)] ("S") ("f") (PyValue.int 5)
      (List.mem_cons_self _ _) (by decide)
  · exact c3_amended.2.2.2 [("a", PyValue.str "string")] ("S") (by decide)

/-! Claim C4: dependency ordering of nested class units. -/

/-- The nested loop over an appended field list runs the two halves in
sequence, threading the dedup state. -/
theorem nestedLoop_append (g : PyValue → String → List String → Except PyErr (String × List String))
    (a b : List (String × PyValue)) (seen : List String) :
    nestedLoop g (a ++ b) seen =
      (match nestedLoop g a seen with
       | .error e => .error e
       | .ok (cs, s1) =>
         match nestedLoop g b s1 with
         | .error e => .error e
         | .ok (cs2, s2) => .ok (cs ++ cs2, s2)) := by
  induction a generalizing seen with
  | nil =>
    simp only [List.nil_append, nestedLoop]
    cases h : nestedLoop g b seen with
    | error e => rfl
    | ok r => obtain ⟨cs2, s2⟩ := r; rfl
  | cons p a' ih =>
    obtain ⟨f, fd⟩ := p
    rw [List.cons_append]
    by_cases hn : isNoneV fd = true
    · have hstep : nestedLoop g ((f, fd) :: (a' ++ b)) seen = nestedLoop g (a' ++ b) seen := by
        simp [nestedLoop, hn]
      have hstep2 : nestedLoop g ((f, fd) :: a') seen = nestedLoop g a' seen := by
        simp [nestedLoop, hn]
      rw [hstep, hstep2, ih seen]
    · cases hg : g fd f seen with
      | error e =>
        have hstep : nestedLoop g ((f, fd) :: (a' ++ b)) seen = .error e := by
          simp [nestedLoop, hn, hg]
        have hstep2 : nestedLoop g ((f, fd) :: a') seen = .error e := by
          simp [nestedLoop, hn, hg]
        rw [hstep, hstep2]
      | ok r =>
        obtain ⟨c1, s1⟩ := r
        by_cases hc : c1 = "" <;>
        · have hstep : nestedLoop g ((f, fd) :: (a' ++ b)) seen =
              (match nestedLoop g (a' ++ b) s1 with
               | .error e => .error e
               | .ok (codes, s2) =>
                 if c1 = "" then .ok (codes, s2) else .ok (c1 :: codes, s2)) := by
            simp only [nestedLoop]
            rw [if_neg hn, hg]
          have hstep2 : nestedLoop g ((f, fd) :: a') seen =
              (match nestedLoop g a' s1 with
               | .error e => .error e
               | .ok (codes, s2) =>
                 if c1 = "" then .ok (codes, s2) else .ok (c1 :: codes, s2)) := by
            simp only [nestedLoop]
            rw [if_neg hn, hg]
          rw [hstep, hstep2, ih s1]
          cases h2 : nestedLoop g a' s1 with
          | error e => rfl
          | ok r2 =>
            obtain ⟨cs2, s2⟩ := r2
            cases h3 : nestedLoop g b s2 with
            | error e2 => simp [hc, h3]
            | ok r3 =>
              obtain ⟨cs3, s3⟩ := r3
              simp [hc, h3]

/-- The field-line loop over an appended field list concatenates the two
halves' lines. -/
theorem genFieldLines_append (a b : List (String × PyValue)) :
    genFieldLines (a ++ b) =
      (match genFieldLines a with
       | .error e => .error e
       | .ok la =>
         match genFieldLines b with
         | .error e => .error e
         | .ok lb => .ok (la ++ lb)) := by
  induction a with
  | nil =>
    simp only [List.nil_append, genFieldLines]
    cases h : genFieldLines b with
    | error e => rfl
    | ok lb => rfl
  | cons p a' ih =>
    obtain ⟨f, fd⟩ := p
    rw [List.cons_append]
    by_cases hn : isNoneV fd = true
    · have hstep : genFieldLines ((f, fd) :: (a' ++ b)) = genFieldLines (a' ++ b) := by
        simp [genFieldLines, hn]
      have hstep2 : genFieldLines ((f, fd) :: a') = genFieldLines a' := by
        simp [genFieldLines, hn]
      rw [hstep, hstep2, ih]
    · cases hp : parseFieldDefinition fd f with
      | error e =>
        have hstep : genFieldLines ((f, fd) :: (a' ++ b)) = .error e := by
          simp [genFieldLines, hn, hp]
        have hstep2 : genFieldLines ((f, fd) :: a') = .error e := by
          simp [genFieldLines, hn, hp]
        rw [hstep, hstep2]
      | ok tpo =>
        obtain ⟨t, o⟩ := tpo
        have hstep : genFieldLines ((f, fd) :: (a' ++ b)) =
            (match genFieldLines (a' ++ b) with
             | .error e => .error e
             | .ok others => .ok (lineRender f t o :: others)) := by
          simp only [genFieldLines]
          rw [if_neg hn, hp]
        have hstep2 : genFieldLines ((f, fd) :: a') =
            (match genFieldLines a' with
             | .error e => .error e
             | .ok others => .ok (lineRender f t o :: others)) := by
          simp only [genFieldLines]
          rw [if_neg hn, hp]
        rw [hstep, hstep2, ih]
        cases h2 : genFieldLines a' with
        | error e => rfl
        | ok la =>
          cases h3 : genFieldLines b with
          | error e2 => simp [h3]
          | ok lb => simp [h3]

/-- A join starting at a list head begins with that head. -/
theorem strJoin_cons_lead (sep x : String) (t : List String) :
    ∃ r, strJoin sep (x :: t) = x ++ r := by
  cases t with
  | nil =>
    refine ⟨"", ?_⟩
    apply String.ext
    simp [strJoin, String.data_append]
  | cons y t' =>
    exact ⟨sep ++ strJoin sep (y :: t'), by
      apply String.ext
      simp [strJoin, String.data_append]⟩

/-- A join of a list with a distinguished middle element contains that
element contiguously. -/
theorem strJoin_middle (sep : String) (a : List String) (x : String) (b : List String) :
    ∃ p q, strJoin sep (a ++ x :: b) = p ++ x ++ q := by
  induction a with
  | nil =>
    obtain ⟨r, hr⟩ := strJoin_cons_lead sep x b
    exact ⟨"", r, by
      apply String.ext
      have := congrArg String.data hr
      simp [String.data_append] at this
      simp [String.data_append, this]⟩
  | cons y a' ih =>
    obtain ⟨p, q, hpq⟩ := ih
    have hne : a' ++ x :: b ≠ [] := by simp
    have hstep : strJoin sep (y :: (a' ++ x :: b)) = y ++ sep ++ strJoin sep (a' ++ x :: b) := by
      cases hlist : a' ++ x :: b with
      | nil => exact absurd hlist hne
      | cons z t => rfl
    refine ⟨y ++ sep ++ p, q, ?_⟩
    rw [List.cons_append, hstep, hpq]
    apply String.ext
    simp [String.data_append]

/-- A nested-object field specification free of reserved keys classifies
as a required reference to the titlecased class name. -/
theorem parseField_nestedObj (sub : List (String × PyValue)) (f : String)
    (ht : dictHas sub ("type") = false) (hop : dictHas sub ("optional") = false) :
    parseFieldDefinition (PyValue.dict sub) f = .ok (pyTitle f ++ "Class", false) := by
  have hgo : dictGet sub ("optional") = Option.none := by
    cases hx : dictGet sub ("optional") with
    | none => rfl
    | some w => rw [dictHas, hx] at hop; simp at hop
  have hgt : dictGet sub ("type") = Option.none := by
    cases hx : dictGet sub ("type") with
    | none => rfl
    | some w => rw [dictHas, hx] at ht; simp at ht
  simp [parseFieldDefinition, dictHas, hgo, hgt]

/-- A rendered class block is never the empty string. -/
theorem renderClassBlock_ne_empty (name : String) (lines : List String) :
    renderClassBlock name lines ≠ "" := by
  obtain ⟨r, hr⟩ := strJoin_cons_lead "\n" ("class " ++ name ++ " \x7b") (lines ++ ["\x7d"])
  intro h
  rw [renderClassBlock, List.cons_append, hr] at h
  have := congrArg String.data h
  simp [String.data_append] at this

/-- Appending on the left of a non-empty string is non-empty. -/
theorem strApp_ne_empty_right (s t : String) (h : t ≠ "") : s ++ t ≠ "" := by
  intro hc
  apply h
  have hd := congrArg String.data hc
  rw [String.data_append] at hd
  have ht : t.data = [] := (List.append_eq_nil.mp hd).2
  exact String.ext (by simp [ht])

/-- Claim C4: when an input mapping contains a nested-object field whose
derived class name has not already been claimed by the fields before it,
the generated source places the nested object's class block strictly
before the root class block, and the root block, which carries the
referencing field line, comes last. The dedup-state hypotheses are
phrased operationally over the embedding at the canonical fuel. -/
theorem c4_dependency_order
    (d1 d2 sub : List (String × PyValue)) (f root out : String) (m : Nat)
    (codes1 seen1 : List String)
    (hm : pySize (PyValue.dict (d1 ++ (f, PyValue.dict sub) :: d2)) = m + 1)
    (hok : generateSchema (PyValue.dict (d1 ++ (f, PyValue.dict sub) :: d2)) root = .ok out)
    (ht : dictHas sub ("type") = false)
    (hop : dictHas sub ("optional") = false)
    (h1 : nestedLoop (fun fd fn s => gen m (GenTask.nested fd fn) s) d1 (root :: []) =
      .ok (codes1, seen1))
    (hfresh : seen1.contains (pyTitle f ++ "Class") = false) :
    ∃ pre mid flines subflines,
      genFieldLines (d1 ++ (f, PyValue.dict sub) :: d2) = .ok flines ∧
      genFieldLines sub = .ok subflines ∧
      lineRender f (pyTitle f ++ "Class") false ∈ flines ∧
      out = pre ++ renderClassBlock (pyTitle f ++ "Class") subflines ++ mid ++
        renderClassBlock root flines := by
  have hmem : (f, PyValue.dict sub) ∈ d1 ++ (f, PyValue.dict sub) :: d2 :=
    List.mem_append.mpr (Or.inr (List.mem_cons_self _ _))
  have hsz1 := pairMem_pySize _ _ _ hmem
  have hsub : pySize (PyValue.dict sub) = 1 + pySizeF sub := by simp [pySize]
  have hD : pySize (PyValue.dict (d1 ++ (f, PyValue.dict sub) :: d2)) =
      1 + pySizeF (d1 ++ (f, PyValue.dict sub) :: d2) := by simp [pySize]
  have hsubpos := pySizeF_pos sub
  obtain ⟨m3, rfl⟩ : ∃ m3, m = m3 + 2 := ⟨m - 2, by omega⟩
  have hgt : dictGet sub ("type") = Option.none := by
    cases hx : dictGet sub ("type") with
    | none => rfl
    | some w => rw [dictHas, hx] at ht; simp at ht
  have hnn : ¬ (isNoneV (PyValue.dict sub) = true) := by simp [isNoneV]
  -- extract the run of the generator from the success hypothesis
  simp only [generateSchema] at hok
  rw [hm] at hok
  cases hgen : gen (m3 + 2 + 1)
      (GenTask.cls (d1 ++ (f, PyValue.dict sub) :: d2) root) [] with
  | error e => rw [hgen] at hok; exact absurd hok (by simp)
  | ok r =>
  obtain ⟨code0, sfin⟩ := r
  rw [hgen] at hok
  have hcode : code0 = out := by simpa using hok
  subst hcode
  have hstepTop : gen (m3 + 2 + 1)
      (GenTask.cls (d1 ++ (f, PyValue.dict sub) :: d2) root) [] =
      (match genFieldLines (d1 ++ (f, PyValue.dict sub) :: d2) with
       | .error e => .error e
       | .ok flines =>
         match nestedLoop (fun fd fn s => gen (m3 + 2) (GenTask.nested fd fn) s)
             (d1 ++ (f, PyValue.dict sub) :: d2) (root :: []) with
         | .error e => .error e
         | .ok (codes, seen3) =>
           let block := strJoin "\n" (("class " ++ root ++ " \x7b") :: flines ++ ["\x7d"])
           if codes.isEmpty then .ok (block, seen3)
           else .ok (strJoin "\n" codes ++ "\n\n" ++ block, seen3)) := rfl
  rw [hstepTop] at hgen
  cases hfl : genFieldLines (d1 ++ (f, PyValue.dict sub) :: d2) with
  | error e => rw [hfl] at hgen; exact absurd hgen (by simp)
  | ok flines =>
  rw [hfl] at hgen
  dsimp only at hgen
  rw [nestedLoop_append, h1] at hgen
  dsimp only at hgen
  have hstepCons : nestedLoop (fun fd fn s => gen (m3 + 2) (GenTask.nested fd fn) s)
      ((f, PyValue.dict sub) :: d2) seen1 =
      (match gen (m3 + 2) (GenTask.nested (PyValue.dict sub) f) seen1 with
       | .error e => .error e
       | .ok (code, s1) =>
         match nestedLoop (fun fd fn s => gen (m3 + 2) (GenTask.nested fd fn) s) d2 s1 with
         | .error e => .error e
         | .ok (codes, s2) =>
           if code = "" then .ok (codes, s2) else .ok (code :: codes, s2)) := by
    simp only [nestedLoop]
    rw [if_neg hnn]
  rw [hstepCons] at hgen
  have hstepNested : gen (m3 + 2) (GenTask.nested (PyValue.dict sub) f) seen1 =
      gen (m3 + 1) (GenTask.cls sub (pyTitle f ++ "Class")) seen1 := by
    have hstep : gen (m3 + 2) (GenTask.nested (PyValue.dict sub) f) seen1 =
        (match dictGet sub ("type") with
         | Option.none => gen (m3 + 1) (GenTask.cls sub (pyTitle f ++ "Class")) seen1
         | Option.some (PyValue.str s) =>
           if s = "enum" then
             match genEnumCode sub f with
             | .error e => .error e
             | .ok code => .ok (code, seen1)
           else .ok ("", seen1)
         | Option.some (PyValue.dict t) => gen (m3 + 1) (GenTask.cls t (pyTitle f ++ "Class")) seen1
         | Option.some _ => .ok ("", seen1)) := rfl
    rw [hstep, hgt]
  rw [hstepNested] at hgen
  have hstepSub : gen (m3 + 1) (GenTask.cls sub (pyTitle f ++ "Class")) seen1 =
      (if seen1.contains (pyTitle f ++ "Class") then .ok ("", seen1)
       else
        match genFieldLines sub with
        | .error e => .error e
        | .ok flines =>
          match nestedLoop (fun fd fn s => gen m3 (GenTask.nested fd fn) s) sub
              ((pyTitle f ++ "Class") :: seen1) with
          | .error e => .error e
          | .ok (codes, seen3) =>
            let block := strJoin "\n"
              (("class " ++ (pyTitle f ++ "Class") ++ " \x7b") :: flines ++ ["\x7d"])
            if codes.isEmpty then .ok (block, seen3)
            else .ok (strJoin "\n" codes ++ "\n\n" ++ block, seen3)) := rfl
  rw [hstepSub, if_neg (by rw [hfresh]; exact Bool.false_ne_true)] at hgen
  cases hfs : genFieldLines sub with
  | error e => rw [hfs] at hgen; exact absurd hgen (by simp)
  | ok subflines =>
  rw [hfs] at hgen
  dsimp only at hgen
  cases hsl : nestedLoop (fun fd fn s => gen m3 (GenTask.nested fd fn) s) sub
      ((pyTitle f ++ "Class") :: seen1) with
  | error e => rw [hsl] at hgen; exact absurd hgen (by simp)
  | ok rs =>
  obtain ⟨subcodes, sseen⟩ := rs
  rw [hsl] at hgen
  dsimp only at hgen
  have hrcb : renderClassBlock (pyTitle f ++ "Class") subflines =
      strJoin "\n" (("class " ++ (pyTitle f ++ "Class") ++ " \x7b") :: subflines ++ ["\x7d"]) := rfl
  have hrcbne := renderClassBlock_ne_empty (pyTitle f ++ "Class") subflines
  -- the membership of the referencing line in the root's field lines
  have hpc := parseField_nestedObj sub f ht hop
  have hflmem : lineRender f (pyTitle f ++ "Class") false ∈ flines := by
    rw [genFieldLines_append] at hfl
    cases hfa : genFieldLines d1 with
    | error e => rw [hfa] at hfl; simp at hfl
    | ok la =>
      rw [hfa] at hfl
      have hconsF : genFieldLines ((f, PyValue.dict sub) :: d2) =
          (match genFieldLines d2 with
           | .error e => .error e
           | .ok o2 => .ok (lineRender f (pyTitle f ++ "Class") false :: o2)) := by
        simp only [genFieldLines]
        rw [if_neg hnn, hpc]
      rw [hconsF] at hfl
      cases hfb : genFieldLines d2 with
      | error e => rw [hfb] at hfl; simp at hfl
      | ok l2 =>
        rw [hfb] at hfl
        have : flines = la ++ lineRender f (pyTitle f ++ "Class") false :: l2 := by
          simpa using hfl.symm
        rw [this]
        exact List.mem_append.mpr (Or.inr (List.mem_cons_self _ _))
  have hcf : strJoin "\n"
      (("class " ++ (pyTitle f ++ "Class") ++ " \x7b") :: subflines ++ ["\x7d"]) ≠ "" := by
    rw [← hrcb]
    exact hrcbne
  by_cases hsc : subcodes.isEmpty = true
  · -- the nested class block stands alone
    simp only [hsc, reduceIte] at hgen
    cases hd2 : nestedLoop (fun fd fn s => gen (m3 + 2) (GenTask.nested fd fn) s) d2 sseen with
    | error e => rw [hd2] at hgen; exact absurd hgen (by simp)
    | ok rd2 =>
    obtain ⟨codes2, s2fin⟩ := rd2
    rw [hd2] at hgen
    dsimp only at hgen
    rw [if_neg hcf] at hgen
    dsimp only at hgen
    have hne2 : (codes1 ++ strJoin "\n"
        (("class " ++ (pyTitle f ++ "Class") ++ " \x7b") :: subflines ++ ["\x7d"]) :: codes2).isEmpty = false := by
      simp
    simp only [hne2, Bool.false_eq_true, if_false] at hgen
    have hout : strJoin "\n" (codes1 ++ strJoin "\n"
          (("class " ++ (pyTitle f ++ "Class") ++ " \x7b") :: subflines ++ ["\x7d"]) :: codes2) ++
        "\n\n" ++ strJoin "\n" (("class " ++ root ++ " \x7b") :: flines ++ ["\x7d"]) = code0 := by
      have := hgen
      simp only [Except.ok.injEq, Prod.mk.injEq] at this
      exact this.1
    obtain ⟨p, q, hpq⟩ := strJoin_middle ("\n") codes1
      (strJoin "\n" (("class " ++ (pyTitle f ++ "Class") ++ " \x7b") :: subflines ++ ["\x7d"])) codes2
    refine ⟨p, q ++ "\n\n", flines, subflines, rfl, rfl, hflmem, ?_⟩
    rw [← hout, hpq, hrcb]
    apply String.ext
    simp [String.data_append, renderClassBlock, List.append_assoc]
  · -- the nested class block follows its own dependencies
    have hscF : subcodes.isEmpty = false := by
      cases hx : subcodes.isEmpty with
      | false => rfl
      | true => exact absurd hx hsc
    simp only [hscF, Bool.false_eq_true, reduceIte] at hgen
    cases hd2 : nestedLoop (fun fd fn s => gen (m3 + 2) (GenTask.nested fd fn) s) d2 sseen with
    | error e => rw [hd2] at hgen; exact absurd hgen (by simp)
    | ok rd2 =>
    obtain ⟨codes2, s2fin⟩ := rd2
    have hcf2 : strJoin "\n" subcodes ++ "\n\n" ++ strJoin "\n"
        (("class " ++ (pyTitle f ++ "Class") ++ " \x7b") :: subflines ++ ["\x7d"]) ≠ "" := by
      apply strApp_ne_empty_right
      exact hcf
    rw [hd2] at hgen
    dsimp only at hgen
    rw [if_neg hcf2] at hgen
    dsimp only at hgen
    have hne2 : (codes1 ++ (strJoin "\n" subcodes ++ "\n\n" ++ strJoin "\n"
        (("class " ++ (pyTitle f ++ "Class") ++ " \x7b") :: subflines ++ ["\x7d"])) :: codes2).isEmpty = false := by
      simp
    simp only [hne2, Bool.false_eq_true, if_false] at hgen
    have hout : strJoin "\n" (codes1 ++ (strJoin "\n" subcodes ++ "\n\n" ++ strJoin "\n"
          (("class " ++ (pyTitle f ++ "Class") ++ " \x7b") :: subflines ++ ["\x7d"])) :: codes2) ++
        "\n\n" ++ strJoin "\n" (("class " ++ root ++ " \x7b") :: flines ++ ["\x7d"]) = code0 := by
      have := hgen
      simp only [Except.ok.injEq, Prod.mk.injEq] at this
      exact this.1
    obtain ⟨p, q, hpq⟩ := strJoin_middle ("\n") codes1
      (strJoin "\n" subcodes ++ "\n\n" ++ strJoin "\n"
        (("class " ++ (pyTitle f ++ "Class") ++ " \x7b") :: subflines ++ ["\x7d"])) codes2
    refine ⟨p ++ (strJoin "\n" subcodes ++ "\n\n"), q ++ "\n\n", flines, subflines,
      rfl, rfl, hflmem, ?_⟩
    rw [← hout, hpq, hrcb]
    apply String.ext
    simp [String.data_append, renderClassBlock, List.append_assoc]

/-- Witness for C4: on the concrete input
\x7b"age": "int", "user": \x7b"name": "string"\x7d\x7d with root "Profile",
generation succeeds and the theorem applies, placing the UserClass block
strictly before the Profile block that references it. -/
theorem c4_witness :
    generateSchema (PyValue.dict [("age", PyValue.str ("int")),
        ("user", PyValue.dict [("name", PyValue.str ("string"))])]) ("Profile") =
      .ok ("class UserClass \x7b\n  name string\n\x7d\n\nclass Profile \x7b\n  age int\n  user UserClass\n\x7d") ∧
    (∃ pre mid flines subflines,
      genFieldLines [("age", PyValue.str ("int")),
        ("user", PyValue.dict [("name", PyValue.str ("string"))])] = .ok flines ∧
      genFieldLines [("name", PyValue.str ("string"))] = .ok subflines ∧
      lineRender ("user") (pyTitle ("user") ++ "Class") false ∈ flines ∧
      "class UserClass \x7b\n  name string\n\x7d\n\nclass Profile \x7b\n  age int\n  user UserClass\n\x7d" =
        pre ++ renderClassBlock (pyTitle ("user") ++ "Class") subflines ++ mid ++
          renderClassBlock ("Profile") flines) :=
  ⟨rfl, c4_dependency_order
    [("age", PyValue.str ("int"))] [] [("name", PyValue.str ("string"))]
    ("user") ("Profile")
    ("class UserClass \x7b\n  name string\n\x7d\n\nclass Profile \x7b\n  age int\n  user UserClass\n\x7d")
    8 [] [("Profile")] rfl rfl rfl rfl rfl rfl⟩

/-- Modelled from the claim, not from the source: the claimed normalization
tries the tagged-fence scan (all matches), the untagged-fence scan, then
only the FIRST brace-delimited substring, then the whole trimmed text, and
falls back to line-oriented parsing only when all four fail. -/
def claimNormalize (r : String) : Json :=
  match firstDecodable (findallPat Pat.fencedJson r) with
  | Option.some j => j
  | Option.none =>
  match firstDecodable (findallPat Pat.fenced r) with
  | Option.some j => j
  | Option.none =>
  match (findallPat Pat.braces r).head? with
  | Option.some c =>
    (match loads (String.mk c) with
     | Option.some j => j
     | Option.none =>
       match loads (pyStrip r) with
       | Option.some j => j
       | Option.none => lineDictJson r)
  | Option.none =>
    match loads (pyStrip r) with
    | Option.some j => j
    | Option.none => lineDictJson r

/-- C1 counterexample, two divergences. First, on
"\x7bnope\x7d \x7b\"x\": 1\x7d" the code scans ALL brace-delimited matches
and decodes the second one, returning the dictionary with x = 1, while the
claim's strategy 3 tries only the first brace-delimited substring, which
does not decode, so the claimed normalization falls through to line-oriented
parsing and returns a different dictionary. Second, on "\x7b\x7d\nkey: value"
the first brace-delimited substring decodes to the empty dictionary, so under
the claim that decoded document wins; but the code's `if json_data:` test is
false for a falsy document, and it returns the line-parsed dictionary with
key = value instead. -/
theorem c1_counterexample :
    (okR (parseResponse ("\x7bnope\x7d \x7b\"x\": 1\x7d") ("S")) =
      Option.some ("\x7b\"x\": 1\x7d") ∧
     jRender (claimNormalize ("\x7bnope\x7d \x7b\"x\": 1\x7d")) ≠ "\x7b\"x\": 1\x7d") ∧
    (jRender (claimNormalize ("\x7b\x7d\nkey: value")) = "\x7b\x7d" ∧
     okR (parseResponse ("\x7b\x7d\nkey: value") ("S")) =
       Option.some ("\x7b\"key\": \"value\"\x7d")) := by
  decide

/-- C1 amended: extraction tries the three patterns in the claimed order,
but scans ALL matches of each pattern, including the bare-brace pattern,
taking the first decodable one, and then the whole stripped response; a
decoded non-empty dictionary is returned exactly; a decoded FALSY document
(an empty dictionary, and likewise null, false, zero, an empty array or
string) does not win: the line-oriented fallback runs instead, as it does
when nothing decodes at all; the spec's concrete prose-surrounded
json-tagged fence example decodes to the dictionary with x = 1. -/
theorem c1_amended (r n : String) :
    (extractJson r =
      (match firstDecodable (findallPat Pat.fencedJson r) with
       | Option.some j => Option.some j
       | Option.none =>
       match firstDecodable (findallPat Pat.fenced r) with
       | Option.some j => Option.some j
       | Option.none =>
       match firstDecodable (findallPat Pat.braces r) with
       | Option.some j => Option.some j
       | Option.none => loads (pyStrip r))) ∧
    (∀ p l, extractJson r = Option.some (Json.obj (p :: l)) →
      parseResponse r n = .ok (Json.obj (p :: l))) ∧
    (∀ j, extractJson r = Option.some j → jTruthy j = false →
      parseResponse r n = .ok (lineDictJson r)) ∧
    (extractJson r = Option.none → parseResponse r n = .ok (lineDictJson r)) ∧
    parseResponse ("Here is the result:\n\x60\x60\x60json\n\x7b\"x\": 1\x7d\n\x60\x60\x60\nThanks!") n =
      .ok (Json.obj [("x", Json.int 1)]) := by
  refine ⟨?_, ?_, ?_, ?_, ?_⟩
  · cases h1 : firstDecodable (findallPat Pat.fencedJson r) with
    | some j => simp [extractJson, tryPatterns, h1]
    | none =>
      cases h2 : firstDecodable (findallPat Pat.fenced r) with
      | some j => simp [extractJson, tryPatterns, h1, h2]
      | none =>
        cases h3 : firstDecodable (findallPat Pat.braces r) with
        | some j => simp [extractJson, tryPatterns, h1, h2, h3]
        | none => simp [extractJson, tryPatterns, h1, h2, h3]
  · intro p l h
    simp [parseResponse, h, jTruthy, validateAgainstSchema]
  · intro j h hf
    simp [parseResponse, h, hf]
  · intro h
    simp [parseResponse, h]
  · rfl

/-- Witness for C1 amended: on the input "hello" no pattern matches and the
stripped text does not decode, so parse_response returns the line
dictionary; on "\x7b\x7d\nkey: value" extraction decodes the falsy empty
dictionary and parse_response again returns the line dictionary. -/
theorem c1_witness :
    (extractJson ("hello") = Option.none ∧
     parseResponse ("hello") ("S") = .ok (lineDictJson ("hello"))) ∧
    (extractJson ("\x7b\x7d\nkey: value") = Option.some (Json.obj []) ∧
     jTruthy (Json.obj []) = false ∧
     parseResponse ("\x7b\x7d\nkey: value") ("S") =
       .ok (lineDictJson ("\x7b\x7d\nkey: value"))) :=
  ⟨⟨rfl, (c1_amended ("hello") ("S")).2.2.2.1 rfl⟩,
   ⟨rfl, rfl, (c1_amended ("\x7b\x7d\nkey: value") ("S")).2.2.1 (Json.obj []) rfl rfl⟩⟩

/-! Development for the generator-extractor round trip: colon-freeness of
generated schema text and its consequence for the pattern-based metadata
extractor, whose field pattern requires a colon. -/

/-- A string free of the field-pattern separator character. -/
def strNoColon (s : String) : Bool := s.data.all (fun c => c ≠ ':')

mutual

/-- A Python value whose strings are all free of colons. -/
def noColonV : PyValue → Bool
  | .none => true
  | .bool _ => true
  | .int _ => true
  | .str s => strNoColon s
  | .list xs => noColonEls xs
  | .dict d => noColonFlds d

/-- Elementwise colon-freeness of a list of values. -/
def noColonEls : List PyValue → Bool
  | [] => true
  | v :: rest => noColonV v && noColonEls rest

/-- Colon-freeness of all keys and values of a field mapping. -/
def noColonFlds : List (String × PyValue) → Bool
  | [] => true
  | (k, v) :: rest => strNoColon k && noColonV v && noColonFlds rest

end

theorem strNoColon_chars (s : String) (h : strNoColon s = true) :
    ∀ c ∈ s.data, c ≠ ':' := by
  simpa [strNoColon] using h

theorem noColonEls_mem (xs : List PyValue) (v : PyValue)
    (h : noColonEls xs = true) (hm : v ∈ xs) : noColonV v = true := by
  induction xs with
  | nil => simp at hm
  | cons x rest ih =>
    simp only [noColonEls, Bool.and_eq_true] at h
    rcases List.mem_cons.mp hm with h1 | h1
    · rw [h1]; exact h.1
    · exact ih h.2 h1

theorem noColonFlds_memKey (d : List (String × PyValue)) (k : String) (v : PyValue)
    (h : noColonFlds d = true) (hm : (k, v) ∈ d) : strNoColon k = true := by
  induction d with
  | nil => simp at hm
  | cons q rest ih =>
    obtain ⟨qk, qv⟩ := q
    simp only [noColonFlds, Bool.and_eq_true] at h
    rcases List.mem_cons.mp hm with h1 | h1
    · rw [Prod.mk.injEq] at h1; rw [h1.1]; exact h.1.1
    · exact ih h.2 h1

theorem noColonFlds_memVal (d : List (String × PyValue)) (k : String) (v : PyValue)
    (h : noColonFlds d = true) (hm : (k, v) ∈ d) : noColonV v = true := by
  induction d with
  | nil => simp at hm
  | cons q rest ih =>
    obtain ⟨qk, qv⟩ := q
    simp only [noColonFlds, Bool.and_eq_true] at h
    rcases List.mem_cons.mp hm with h1 | h1
    · rw [Prod.mk.injEq] at h1; rw [h1.2]; exact h.1.2
    · exact ih h.2 h1

theorem upCh_ne_colon (c : Char) (h : c ≠ ':') : upCh c ≠ ':' := by
  unfold upCh
  split
  · next hl =>
    simp only [isLowerCh, Bool.and_eq_true, decide_eq_true_eq] at hl
    have h1 : 97 ≤ c.toNat := hl.1
    have h2 : c.toNat ≤ 122 := hl.2
    have h3 : 65 ≤ c.toNat - 32 := by omega
    have h4 : c.toNat - 32 ≤ 90 := by omega
    generalize c.toNat - 32 = k at h3 h4
    interval_cases k <;> decide
  · exact h

theorem lowCh_ne_colon (c : Char) (h : c ≠ ':') : lowCh c ≠ ':' := by
  unfold lowCh
  split
  · next hl =>
    simp only [isUpperCh, Bool.and_eq_true, decide_eq_true_eq] at hl
    have h1 : 65 ≤ c.toNat := hl.1
    have h2 : c.toNat ≤ 90 := hl.2
    have h3 : 97 ≤ c.toNat + 32 := by omega
    have h4 : c.toNat + 32 ≤ 122 := by omega
    generalize c.toNat + 32 = k at h3 h4
    interval_cases k <;> decide
  · exact h

theorem titleChars_noColon (l : List Char) :
    ∀ b, (∀ c ∈ l, c ≠ ':') → ∀ c ∈ titleChars b l, c ≠ ':' := by
  induction l with
  | nil => intro b _ c hc; simp [titleChars] at hc
  | cons x rest ih =>
    intro b h c hc
    have hx : x ≠ ':' := h x (List.mem_cons_self _ _)
    have hrest : ∀ c ∈ rest, c ≠ ':' := fun c hc => h c (List.mem_cons_of_mem _ hc)
    simp only [titleChars] at hc
    by_cases ha : isAlphaCh x = true
    · rw [if_pos ha] at hc
      rcases List.mem_cons.mp hc with h1 | h1
      · rw [h1]
        by_cases hb : b = true
        · rw [hb]; simpa using lowCh_ne_colon x hx
        · have : b = false := by cases b <;> simp_all
          rw [this]; simpa using upCh_ne_colon x hx
      · exact ih true hrest c h1
    · rw [if_neg ha] at hc
      rcases List.mem_cons.mp hc with h1 | h1
      · rw [h1]; exact hx
      · exact ih false hrest c h1

theorem pyTitle_noColon (s : String) (h : ∀ c ∈ s.data, c ≠ ':') :
    ∀ c ∈ (pyTitle s).data, c ≠ ':' := by
  intro c hc
  exact titleChars_noColon s.data false h c hc

theorem append_noColon (s t : String) (hs : ∀ c ∈ s.data, c ≠ ':')
    (ht : ∀ c ∈ t.data, c ≠ ':') : ∀ c ∈ (s ++ t).data, c ≠ ':' := by
  intro c hc
  rw [String.data_append] at hc
  rcases List.mem_append.mp hc with h1 | h1
  · exact hs c h1
  · exact ht c h1

theorem strJoin_noColon (sep : String) (hsep : ∀ c ∈ sep.data, c ≠ ':') :
    ∀ parts : List String, (∀ p ∈ parts, ∀ c ∈ p.data, c ≠ ':') →
      ∀ c ∈ (strJoin sep parts).data, c ≠ ':'
  | [], _ => by intro c hc; simp [strJoin] at hc
  | [x], h => by
    intro c hc
    exact h x (List.mem_singleton_self _) c (by simpa [strJoin] using hc)
  | x :: y :: rest, h => by
    intro c hc
    simp only [strJoin] at hc
    have hx : ∀ c ∈ x.data, c ≠ ':' := h x (List.mem_cons_self _ _)
    have hr : ∀ p ∈ y :: rest, ∀ c ∈ p.data, c ≠ ':' :=
      fun p hp => h p (List.mem_cons_of_mem _ hp)
    exact append_noColon (x ++ sep) (strJoin sep (y :: rest))
      (append_noColon x sep hx hsep)
      (strJoin_noColon sep hsep (y :: rest) hr) c hc

theorem replaceCh_noColon (a b : Char) (s : String) (hb : b ≠ ':')
    (h : ∀ c ∈ s.data, c ≠ ':') : ∀ c ∈ (replaceCh a b s).data, c ≠ ':' := by
  intro c hc
  simp only [replaceCh] at hc
  obtain ⟨c0, hc0, hmap⟩ := List.mem_map.mp hc
  by_cases he : c0 = a
  · rw [he] at hmap; simp at hmap; rw [← hmap]; exact hb
  · rw [if_neg he] at hmap; rw [← hmap]; exact h c0 hc0

theorem pyUpper_noColon (s : String) (h : ∀ c ∈ s.data, c ≠ ':') :
    ∀ c ∈ (pyUpper s).data, c ≠ ':' := by
  intro c hc
  simp only [pyUpper] at hc
  obtain ⟨c0, hc0, hmap⟩ := List.mem_map.mp hc
  rw [← hmap]
  exact upCh_ne_colon c0 (h c0 hc0)

theorem enumValueNorm_noColon (v : String) (h : ∀ c ∈ v.data, c ≠ ':') :
    ∀ c ∈ (enumValueNorm v).data, c ≠ ':' := by
  unfold enumValueNorm
  exact replaceCh_noColon _ _ _ (by decide)
    (replaceCh_noColon _ _ _ (by decide) (pyUpper_noColon v h))

theorem mapBasicType_ok_noColon (v : PyValue) (t : String)
    (h : mapBasicType v = .ok t) : ∀ c ∈ t.data, c ≠ ':' := by
  cases v with
  | str s =>
    simp only [mapBasicType, Except.ok.injEq] at h
    cases hf : typeMapping.find? (fun p => p.1 == s) with
    | none =>
      rw [hf] at h
      simp at h
      rw [← h]; decide
    | some p =>
      rw [hf] at h
      simp at h
      have hmem := List.mem_of_find?_eq_some hf
      rw [← h]
      simp only [typeMapping, List.mem_cons, List.not_mem_nil, or_false] at hmem
      rcases hmem with h1 | h1 | h1 | h1 | h1 | h1 | h1 | h1 <;> (rw [h1]; decide)
  | list xs => simp [mapBasicType] at h
  | dict d => simp [mapBasicType] at h
  | none => simp only [mapBasicType, Except.ok.injEq] at h; rw [← h]; decide
  | bool b => simp only [mapBasicType, Except.ok.injEq] at h; rw [← h]; decide
  | int n => simp only [mapBasicType, Except.ok.injEq] at h; rw [← h]; decide

theorem classNameSuffix_noColon (f : String) (suffix : String)
    (hf : ∀ c ∈ f.data, c ≠ ':') (hs : ∀ c ∈ suffix.data, c ≠ ':') :
    ∀ c ∈ (pyTitle f ++ suffix).data, c ≠ ':' :=
  append_noColon _ _ (pyTitle_noColon f hf) hs

theorem arraySuffix_noColon (t : String) (h : ∀ c ∈ t.data, c ≠ ':') :
    ∀ c ∈ (t ++ "[]").data, c ≠ ':' :=
  append_noColon _ _ h (by decide)

theorem parseField_ok_noColon (fd : PyValue) (f t : String) (opt : Bool)
    (hf : ∀ c ∈ f.data, c ≠ ':')
    (h : parseFieldDefinition fd f = .ok (t, opt)) : ∀ c ∈ t.data, c ≠ ':' := by
  have hcls : ∀ c ∈ (pyTitle f ++ "Class").data, c ≠ ':' :=
    classNameSuffix_noColon f ("Class") hf (by decide)
  have henm : ∀ c ∈ (pyTitle f ++ "Enum").data, c ≠ ':' :=
    classNameSuffix_noColon f ("Enum") hf (by decide)
  cases fd with
  | none => simp [parseFieldDefinition] at h
  | bool b => simp [parseFieldDefinition, pyTypeName] at h
  | int n => simp [parseFieldDefinition, pyTypeName] at h
  | str s =>
    simp only [parseFieldDefinition] at h
    cases hm : mapBasicType (.str s) with
    | error e => rw [hm] at h; simp at h
    | ok u =>
      rw [hm] at h
      simp only [Except.ok.injEq, Prod.mk.injEq] at h
      rw [← h.1]
      exact mapBasicType_ok_noColon _ _ hm
  | list xs =>
    simp only [parseFieldDefinition] at h
    cases xs with
    | nil => simp at h
    | cons x rest =>
      cases rest with
      | cons y more => simp at h
      | nil =>
        dsimp only at h
        cases hm : mapBasicType x with
        | error e => rw [hm] at h; simp at h
        | ok u =>
          rw [hm] at h
          simp only [Except.ok.injEq, Prod.mk.injEq] at h
          rw [← h.1]
          exact arraySuffix_noColon u (mapBasicType_ok_noColon _ _ hm)
  | dict d =>
    simp only [parseFieldDefinition] at h
    by_cases hop : dictHas d ("optional") = true
    · rw [if_pos hop] at h
      cases hg : dictGet d ("type") with
      | none =>
        rw [hg] at h
        dsimp only at h
        rw [hg] at h
        dsimp only at h
        simp only [Except.ok.injEq, Prod.mk.injEq] at h
        rw [← h.1]
        exact hcls
      | some v =>
        rw [hg] at h
        dsimp only at h
        cases v with
        | dict d2 =>
          dsimp only at h
          cases hg2 : dictGet d2 ("type") with
          | none =>
            rw [hg2] at h
            dsimp only at h
            simp only [Except.ok.injEq, Prod.mk.injEq] at h
            rw [← h.1]; exact hcls
          | some w =>
            rw [hg2] at h
            cases w with
            | str s2 =>
              dsimp only at h
              by_cases he : s2 = "enum"
              · rw [if_pos he] at h
                simp only [Except.ok.injEq, Prod.mk.injEq] at h
                rw [← h.1]; exact henm
              · rw [if_neg he] at h
                simp only [Except.ok.injEq, Prod.mk.injEq] at h
                rw [← h.1]; exact hcls
            | none =>
              dsimp only at h
              simp only [Except.ok.injEq, Prod.mk.injEq] at h
              rw [← h.1]; exact hcls
            | bool b =>
              dsimp only at h
              simp only [Except.ok.injEq, Prod.mk.injEq] at h
              rw [← h.1]; exact hcls
            | int n =>
              dsimp only at h
              simp only [Except.ok.injEq, Prod.mk.injEq] at h
              rw [← h.1]; exact hcls
            | list ys =>
              dsimp only at h
              simp only [Except.ok.injEq, Prod.mk.injEq] at h
              rw [← h.1]; exact hcls
            | dict d3 =>
              dsimp only at h
              simp only [Except.ok.injEq, Prod.mk.injEq] at h
              rw [← h.1]; exact hcls
        | str s2 =>
          dsimp only at h
          cases hm : mapBasicType (.str s2) with
          | error e => rw [hm] at h; simp at h
          | ok u =>
            rw [hm] at h
            simp only [Except.ok.injEq, Prod.mk.injEq] at h
            rw [← h.1]
            exact mapBasicType_ok_noColon _ _ hm
        | list ys =>
          dsimp only at h
          cases ys with
          | nil => simp at h
          | cons x rest =>
            cases rest with
            | cons y more => simp at h
            | nil =>
              dsimp only at h
              cases hm : mapBasicType x with
              | error e => rw [hm] at h; simp at h
              | ok u =>
                rw [hm] at h
                simp only [Except.ok.injEq, Prod.mk.injEq] at h
                rw [← h.1]
                exact arraySuffix_noColon u (mapBasicType_ok_noColon _ _ hm)
        | none => simp at h
        | bool b => simp at h
        | int n => simp at h
    · rw [if_neg hop] at h
      dsimp only at h
      cases hg : dictGet d ("type") with
      | none =>
        rw [hg] at h
        dsimp only at h
        simp only [Except.ok.injEq, Prod.mk.injEq] at h
        rw [← h.1]; exact hcls
      | some v =>
        rw [hg] at h
        cases v with
        | str s2 =>
          dsimp only at h
          by_cases he : s2 = "enum"
          · rw [if_pos he] at h
            simp only [Except.ok.injEq, Prod.mk.injEq] at h
            rw [← h.1]; exact henm
          · rw [if_neg he] at h
            simp only [Except.ok.injEq, Prod.mk.injEq] at h
            rw [← h.1]; exact hcls
        | none =>
          dsimp only at h
          simp only [Except.ok.injEq, Prod.mk.injEq] at h
          rw [← h.1]; exact hcls
        | bool b =>
          dsimp only at h
          simp only [Except.ok.injEq, Prod.mk.injEq] at h
          rw [← h.1]; exact hcls
        | int n =>
          dsimp only at h
          simp only [Except.ok.injEq, Prod.mk.injEq] at h
          rw [← h.1]; exact hcls
        | list ys =>
          dsimp only at h
          simp only [Except.ok.injEq, Prod.mk.injEq] at h
          rw [← h.1]; exact hcls
        | dict d3 =>
          dsimp only at h
          simp only [Except.ok.injEq, Prod.mk.injEq] at h
          rw [← h.1]; exact hcls

theorem lineRender_noColon (f t : String) (opt : Bool)
    (hf : ∀ c ∈ f.data, c ≠ ':') (ht : ∀ c ∈ t.data, c ≠ ':') :
    ∀ c ∈ (lineRender f t opt).data, c ≠ ':' := by
  unfold lineRender
  split
  · exact append_noColon _ _
      (append_noColon _ _
        (append_noColon _ _ (append_noColon _ _ (by decide) hf) (by decide)) ht)
      (by decide)
  · exact append_noColon _ _
      (append_noColon _ _ (append_noColon _ _ (by decide) hf) (by decide)) ht

theorem genFieldLines_noColon (fields : List (String × PyValue)) (flines : List String)
    (hn : noColonFlds fields = true)
    (h : genFieldLines fields = .ok flines) :
    ∀ ln ∈ flines, ∀ c ∈ ln.data, c ≠ ':' := by
  induction fields generalizing flines with
  | nil =>
    simp only [genFieldLines, Except.ok.injEq] at h
    rw [← h]; intro ln hln; simp at hln
  | cons q rest ih =>
    obtain ⟨f, fd⟩ := q
    simp only [noColonFlds, Bool.and_eq_true] at hn
    simp only [genFieldLines] at h
    by_cases hnone : isNoneV fd = true
    · rw [if_pos hnone] at h
      exact ih _ hn.2 h
    · rw [if_neg hnone] at h
      cases hp : parseFieldDefinition fd f with
      | error e => rw [hp] at h; simp at h
      | ok r =>
        obtain ⟨t, opt⟩ := r
        rw [hp] at h
        cases hr : genFieldLines rest with
        | error e => rw [hr] at h; simp at h
        | ok others =>
          rw [hr] at h
          simp only [Except.ok.injEq] at h
          rw [← h]
          intro ln hln
          rcases List.mem_cons.mp hln with h1 | h1
          · rw [h1]
            exact lineRender_noColon f t opt
              (strNoColon_chars f hn.1.1)
              (parseField_ok_noColon fd f t opt (strNoColon_chars f hn.1.1) hp)
          · exact ih _ hn.2 hr ln h1

theorem iterElems_noColon (v : PyValue) (es : List PyValue)
    (hv : noColonV v = true) (h : iterElems v = .ok es) :
    ∀ e ∈ es, noColonV e = true := by
  cases v with
  | list xs =>
    simp only [iterElems, Except.ok.injEq] at h
    rw [← h]
    intro e he
    exact noColonEls_mem xs e hv he
  | str s =>
    simp only [iterElems, Except.ok.injEq] at h
    rw [← h]
    intro e he
    obtain ⟨c, hc, rfl⟩ := List.mem_map.mp he
    have hcne : c ≠ ':' := strNoColon_chars s hv c hc
    simp [noColonV, strNoColon, hcne]
  | dict d =>
    simp only [iterElems, Except.ok.injEq] at h
    rw [← h]
    intro e he
    obtain ⟨p, hp, rfl⟩ := List.mem_map.mp he
    exact noColonFlds_memKey d p.1 p.2 hv hp
  | none => simp [iterElems, pyTypeName] at h
  | bool b => simp [iterElems, pyTypeName] at h
  | int n => simp [iterElems, pyTypeName] at h

theorem enumBody_noColon (vs : List PyValue) (body : String)
    (hvs : ∀ v ∈ vs, noColonV v = true) (h : enumBody vs = .ok body) :
    ∀ c ∈ body.data, c ≠ ':' := by
  induction vs generalizing body with
  | nil =>
    simp only [enumBody, Except.ok.injEq] at h
    rw [← h]; intro c hc; simp at hc
  | cons v rest ihe =>
    simp only [enumBody] at h
    cases het : enumTok v with
    | error e => rw [het] at h; simp at h
    | ok tk =>
      rw [het] at h
      dsimp only at h
      cases her : enumBody rest with
      | error e => rw [her] at h; simp at h
      | ok r =>
        rw [her] at h
        simp only [Except.ok.injEq] at h
        rw [← h]
        have hv0 := hvs v (List.mem_cons_self _ _)
        have htk : ∀ c ∈ tk.data, c ≠ ':' := by
          cases v with
          | str s =>
            simp only [enumTok, Except.ok.injEq] at het
            rw [← het]
            exact enumValueNorm_noColon s (strNoColon_chars s hv0)
          | none => simp [enumTok, pyTypeName] at het
          | bool b => simp [enumTok, pyTypeName] at het
          | int n => simp [enumTok, pyTypeName] at het
          | list xs => simp [enumTok, pyTypeName] at het
          | dict d => simp [enumTok, pyTypeName] at het
        exact append_noColon _ _
          (append_noColon _ _ (append_noColon _ _ (by decide) htk) (by decide))
          (ihe r (fun w hw => hvs w (List.mem_cons_of_mem _ hw)) her)

theorem genEnumCode_noColon (d : List (String × PyValue)) (fn ecode : String)
    (hd : noColonFlds d = true) (hfn : ∀ c ∈ fn.data, c ≠ ':')
    (h : genEnumCode d fn = .ok ecode) : ∀ c ∈ ecode.data, c ≠ ':' := by
  have hvals : noColonV ((dictGet d ("values")).getD (PyValue.list [])) = true := by
    cases hg : dictGet d ("values") with
    | none => rfl
    | some v => simpa using noColonFlds_memVal d _ _ hd (dictGet_mem d _ _ hg)
  unfold genEnumCode at h
  cases hie : iterElems ((dictGet d ("values")).getD (PyValue.list [])) with
  | error e => rw [hie] at h; simp at h
  | ok vs =>
    rw [hie] at h
    dsimp only at h
    cases heb : enumBody vs with
    | error e => rw [heb] at h; simp at h
    | ok body =>
      rw [heb] at h
      simp only [Except.ok.injEq] at h
      rw [← h]
      have hbody : ∀ c ∈ body.data, c ≠ ':' :=
        enumBody_noColon vs body (iterElems_noColon _ vs hvals hie) heb
      exact append_noColon _ _
        (append_noColon _ _
          (append_noColon _ _
            (append_noColon _ _ (by decide) (pyTitle_noColon fn hfn)) (by decide))
          hbody)
        (by decide)

theorem nestedLoop_noColon
    (g : PyValue → String → List String → Except PyErr (String × List String))
    (hg : ∀ fd fn s code s2, noColonV fd = true → (∀ c ∈ fn.data, c ≠ ':') →
      g fd fn s = .ok (code, s2) → ∀ c ∈ code.data, c ≠ ':') :
    ∀ fields seen codes seen2, noColonFlds fields = true →
      nestedLoop g fields seen = .ok (codes, seen2) →
      ∀ cd ∈ codes, ∀ c ∈ cd.data, c ≠ ':' := by
  intro fields
  induction fields with
  | nil =>
    intro seen codes seen2 _ h
    simp only [nestedLoop, Except.ok.injEq, Prod.mk.injEq] at h
    rw [← h.1]; intro cd hcd; simp at hcd
  | cons q rest ihf =>
    intro seen codes seen2 hn h
    obtain ⟨f, fd⟩ := q
    simp only [noColonFlds, Bool.and_eq_true] at hn
    simp only [nestedLoop] at h
    by_cases hnone : isNoneV fd = true
    · rw [if_pos hnone] at h
      exact ihf seen codes seen2 hn.2 h
    · rw [if_neg hnone] at h
      cases hgc : g fd f seen with
      | error e => rw [hgc] at h; simp at h
      | ok r =>
        obtain ⟨code, s1⟩ := r
        rw [hgc] at h
        dsimp only at h
        cases hrest : nestedLoop g rest s1 with
        | error e => rw [hrest] at h; simp at h
        | ok r2 =>
          obtain ⟨codes2, s3⟩ := r2
          rw [hrest] at h
          dsimp only at h
          by_cases hce : code = ""
          · rw [if_pos hce] at h
            simp only [Except.ok.injEq, Prod.mk.injEq] at h
            rw [← h.1]
            exact ihf s1 codes2 s3 hn.2 hrest
          · rw [if_neg hce] at h
            simp only [Except.ok.injEq, Prod.mk.injEq] at h
            rw [← h.1]
            intro cd hcd
            rcases List.mem_cons.mp hcd with h1 | h1
            · rw [h1]
              exact hg fd f seen code s1 hn.1.2 (strNoColon_chars f hn.1.1) hgc
            · exact ihf s1 codes2 s3 hn.2 hrest cd h1

theorem gen_noColon (n : Nat) : ∀ task seen code seen2,
    (match task with
     | GenTask.cls fields cn => noColonFlds fields = true ∧ ∀ c ∈ cn.data, c ≠ ':'
     | GenTask.nested fd fn => noColonV fd = true ∧ ∀ c ∈ fn.data, c ≠ ':') →
    gen n task seen = .ok (code, seen2) → ∀ c ∈ code.data, c ≠ ':' := by
  induction n with
  | zero => intro task seen code seen2 _ h; simp [gen] at h
  | succ n ih =>
    intro task seen code seen2 htask h
    cases task with
    | cls fields cn =>
      obtain ⟨hflds, hcn⟩ := htask
      have hstep : gen (n + 1) (GenTask.cls fields cn) seen =
          (if seen.contains cn then .ok ("", seen)
           else
            match genFieldLines fields with
            | .error e => .error e
            | .ok flines =>
              match nestedLoop (fun fd f s => gen n (.nested fd f) s) fields (cn :: seen) with
              | .error e => .error e
              | .ok (codes, seen3) =>
                let block := strJoin "\n" (("class " ++ cn ++ " \x7b") :: flines ++ ["\x7d"])
                if codes.isEmpty then .ok (block, seen3)
                else .ok (strJoin "\n" codes ++ "\n\n" ++ block, seen3)) := rfl
      rw [hstep] at h
      by_cases hseen : seen.contains cn = true
      · rw [if_pos hseen] at h
        simp only [Except.ok.injEq, Prod.mk.injEq] at h
        rw [← h.1]; intro c hc; simp at hc
      · rw [if_neg hseen] at h
        cases hfl : genFieldLines fields with
        | error e => rw [hfl] at h; simp at h
        | ok flines =>
          rw [hfl] at h
          dsimp only at h
          cases hnl : nestedLoop (fun fd f s => gen n (.nested fd f) s) fields (cn :: seen) with
          | error e => rw [hnl] at h; simp at h
          | ok r =>
            obtain ⟨codes, s3⟩ := r
            rw [hnl] at h
            dsimp only at h
            have hblock : ∀ c ∈ (strJoin "\n"
                (("class " ++ cn ++ " \x7b") :: flines ++ ["\x7d"])).data, c ≠ ':' := by
              apply strJoin_noColon _ (by decide)
              intro p hp
              rcases List.mem_cons.mp hp with h1 | h1
              · rw [h1]
                exact append_noColon _ _ (append_noColon _ _ (by decide) hcn) (by decide)
              · rcases List.mem_append.mp h1 with h2 | h2
                · exact genFieldLines_noColon fields flines hflds hfl p h2
                · have hp2 : p = ("\x7d") := by simpa using h2
                  rw [hp2]; decide
            have hcodes : ∀ cd ∈ codes, ∀ c ∈ cd.data, c ≠ ':' :=
              nestedLoop_noColon (fun fd f s => gen n (.nested fd f) s)
                (fun fd fn s code s2 hfd hfn hgc =>
                  ih (.nested fd fn) s code s2 ⟨hfd, hfn⟩ hgc)
                fields (cn :: seen) codes s3 hflds hnl
            by_cases hemp : codes.isEmpty = true
            · rw [if_pos hemp] at h
              simp only [Except.ok.injEq, Prod.mk.injEq] at h
              rw [← h.1]
              exact hblock
            · rw [if_neg hemp] at h
              simp only [Except.ok.injEq, Prod.mk.injEq] at h
              rw [← h.1]
              exact append_noColon _ _
                (append_noColon _ _
                  (strJoin_noColon _ (by decide) codes hcodes) (by decide))
                hblock
    | nested fd fn =>
      obtain ⟨hfd, hfn⟩ := htask
      cases fd with
      | dict d =>
        have hstep : gen (n + 1) (GenTask.nested (PyValue.dict d) fn) seen =
            (match dictGet d ("type") with
             | Option.none => gen n (.cls d (pyTitle fn ++ "Class")) seen
             | Option.some (PyValue.str s) =>
               if s = "enum" then
                 match genEnumCode d fn with
                 | .error e => .error e
                 | .ok code => .ok (code, seen)
               else .ok ("", seen)
             | Option.some (PyValue.dict t) => gen n (.cls t (pyTitle fn ++ "Class")) seen
             | Option.some _ => .ok ("", seen)) := rfl
        rw [hstep] at h
        cases hg : dictGet d ("type") with
        | none =>
          rw [hg] at h
          exact ih (GenTask.cls d (pyTitle fn ++ "Class")) seen code seen2
            ⟨hfd, classNameSuffix_noColon fn ("Class") hfn (by decide)⟩ h
        | some v =>
          rw [hg] at h
          cases v with
          | str s =>
            dsimp only at h
            by_cases he : s = "enum"
            · rw [if_pos he] at h
              cases hec : genEnumCode d fn with
              | error e => rw [hec] at h; simp at h
              | ok ecode =>
                rw [hec] at h
                simp only [Except.ok.injEq, Prod.mk.injEq] at h
                rw [← h.1]
                exact genEnumCode_noColon d fn ecode hfd hfn hec
            · rw [if_neg he] at h
              simp only [Except.ok.injEq, Prod.mk.injEq] at h
              rw [← h.1]; intro c hc; simp at hc
          | dict t =>
            dsimp only at h
            exact ih (GenTask.cls t (pyTitle fn ++ "Class")) seen code seen2
              ⟨noColonFlds_memVal d _ _ hfd (dictGet_mem d _ _ hg),
               classNameSuffix_noColon fn ("Class") hfn (by decide)⟩ h
          | none =>
            dsimp only at h
            simp only [Except.ok.injEq, Prod.mk.injEq] at h
            rw [← h.1]; intro c hc; simp at hc
          | bool b =>
            dsimp only at h
            simp only [Except.ok.injEq, Prod.mk.injEq] at h
            rw [← h.1]; intro c hc; simp at hc
          | int m =>
            dsimp only at h
            simp only [Except.ok.injEq, Prod.mk.injEq] at h
            rw [← h.1]; intro c hc; simp at hc
          | list xs =>
            dsimp only at h
            simp only [Except.ok.injEq, Prod.mk.injEq] at h
            rw [← h.1]; intro c hc; simp at hc
      | none =>
        simp only [gen, Except.ok.injEq, Prod.mk.injEq] at h
        rw [← h.1]; intro c hc; simp at hc
      | bool b =>
        simp only [gen, Except.ok.injEq, Prod.mk.injEq] at h
        rw [← h.1]; intro c hc; simp at hc
      | int m =>
        simp only [gen, Except.ok.injEq, Prod.mk.injEq] at h
        rw [← h.1]; intro c hc; simp at hc
      | str s =>
        simp only [gen, Except.ok.injEq, Prod.mk.injEq] at h
        rw [← h.1]; intro c hc; simp at hc
      | list xs =>
        simp only [gen, Except.ok.injEq, Prod.mk.injEq] at h
        rw [← h.1]; intro c hc; simp at hc

theorem generateSchema_noColon (d : List (String × PyValue)) (root out : String)
    (hd : noColonFlds d = true) (hroot : ∀ c ∈ root.data, c ≠ ':')
    (h : generateSchema (PyValue.dict d) root = .ok out) :
    ∀ c ∈ out.data, c ≠ ':' := by
  simp only [generateSchema] at h
  cases hg : gen (pySize (PyValue.dict d)) (.cls d root) [] with
  | error e => rw [hg] at h; simp at h
  | ok r =>
    obtain ⟨code, sfin⟩ := r
    rw [hg] at h
    simp only [Except.ok.injEq] at h
    rw [← h]
    exact gen_noColon (pySize (PyValue.dict d)) (.cls d root) [] code sfin ⟨hd, hroot⟩ hg

theorem matchFieldAt_none (l : List Char) (h : ∀ c ∈ l, c ≠ ':') :
    matchFieldAt l = Option.none := by
  simp only [matchFieldAt]
  by_cases hni : (l.takeWhile isWordCh).isEmpty = true
  · rw [if_pos hni]
  · rw [if_neg hni]
    cases hd : l.drop (l.takeWhile isWordCh).length with
    | nil => rfl
    | cons c r =>
      have hcl : c ∈ l := List.drop_subset _ l (by rw [hd]; exact List.mem_cons_self _ _)
      have hcne : c ≠ ':' := h c hcl
      split
      · rename_i heq
        injection heq with h1 h2
        exact absurd h1 hcne
      · rfl

theorem fieldFindAll_nil : ∀ (n : Nat) (l : List Char), (∀ c ∈ l, c ≠ ':') →
    fieldFindAll n l = []
  | 0, _, _ => rfl
  | _ + 1, [], _ => rfl
  | n + 1, c :: rest, h => by
    simp only [fieldFindAll]
    rw [matchFieldAt_none (c :: rest) h]
    exact fieldFindAll_nil n rest (fun c2 hc2 => h c2 (List.mem_cons_of_mem _ hc2))

theorem fieldDictOf_nil (body : String) (h : ∀ c ∈ body.data, c ≠ ':') :
    fieldDictOf body = [] := by
  unfold fieldDictOf
  rw [fieldFindAll_nil _ _ h]
  rfl

theorem stripLead_sub (p : List Char) : ∀ (l r : List Char),
    stripLead p l = Option.some r → ∀ c ∈ r, c ∈ l := by
  induction p with
  | nil =>
    intro l r h
    simp only [stripLead, Option.some.injEq] at h
    rw [← h]; exact fun c hc => hc
  | cons x ps ihp =>
    intro l r h
    cases l with
    | nil => simp [stripLead] at h
    | cons c cs =>
      simp only [stripLead] at h
      by_cases he : c = x
      · rw [if_pos he] at h
        intro c2 hc2
        exact List.mem_cons_of_mem _ (ihp cs r h c2 hc2)
      · rw [if_neg he] at h; simp at h

theorem matchBlockAt_sub (kw l : List Char) (nm bd : String) (suf : List Char)
    (h : matchBlockAt kw l = Option.some ((nm, bd), suf)) : ∀ c ∈ bd.data, c ∈ l := by
  simp only [matchBlockAt] at h
  cases hs : stripLead kw l with
  | none => rw [hs] at h; simp at h
  | some r1 =>
    rw [hs] at h
    have hr1 : ∀ c ∈ r1, c ∈ l := stripLead_sub kw l r1 hs
    cases r1 with
    | nil => simp at h
    | cons c0 cs =>
      dsimp only at h
      repeat' split at h
      all_goals (try (exfalso; exact Option.noConfusion h))
      · rename_i hsp hname r2 r3 heqBrace hb0 rest5 x r6 cw tl heqBrk heqRev
        rw [Option.some.injEq, Prod.mk.injEq] at h
        obtain ⟨h1, h2⟩ := h
        rw [Prod.mk.injEq] at h1
        obtain ⟨hnm, hbd⟩ := h1
        rw [← hbd]
        have hr3 : ∀ c ∈ r3, c ∈ l := by
          intro c hc
          have hx1 : c ∈ List.dropWhile pySpace
              (List.drop (List.takeWhile isWordCh (List.dropWhile pySpace (c0 :: cs))).length
                (List.dropWhile pySpace (c0 :: cs))) := by
            rw [heqBrace]; exact List.mem_cons_of_mem _ hc
          exact hr1 c (List.dropWhile_subset _ (List.drop_subset _ _ (List.dropWhile_subset _ hx1)))
        intro c hc
        have hcw : c = cw := by simpa using hc
        rw [hcw]
        have hmw : cw ∈ (List.takeWhile pySpace r3).reverse := by
          rw [heqRev]; exact List.mem_cons_self _ _
        exact hr3 cw (List.takeWhile_subset _ (List.mem_reverse.mp hmw))
      · rename_i hsp hname r2 r3 heqBrace hb0 x r6 heqBrk
        rw [Option.some.injEq, Prod.mk.injEq] at h
        obtain ⟨h1, h2⟩ := h
        rw [Prod.mk.injEq] at h1
        obtain ⟨hnm, hbd⟩ := h1
        rw [← hbd]
        have hr3 : ∀ c ∈ r3, c ∈ l := by
          intro c hc
          have hx1 : c ∈ List.dropWhile pySpace
              (List.drop (List.takeWhile isWordCh (List.dropWhile pySpace (c0 :: cs))).length
                (List.dropWhile pySpace (c0 :: cs))) := by
            rw [heqBrace]; exact List.mem_cons_of_mem _ hc
          exact hr1 c (List.dropWhile_subset _ (List.drop_subset _ _ (List.dropWhile_subset _ hx1)))
        intro c hc
        have hc2 : c ∈ List.drop (List.takeWhile pySpace r3).length r3 :=
          List.takeWhile_subset _ (by simpa using hc)
        exact hr3 c (List.drop_subset _ _ hc2)

theorem matchBlockAt_suf (kw l : List Char) (nm bd : String) (suf : List Char)
    (h : matchBlockAt kw l = Option.some ((nm, bd), suf)) : ∀ c ∈ suf, c ∈ l := by
  simp only [matchBlockAt] at h
  cases hs : stripLead kw l with
  | none => rw [hs] at h; simp at h
  | some r1 =>
    rw [hs] at h
    have hr1 : ∀ c ∈ r1, c ∈ l := stripLead_sub kw l r1 hs
    cases r1 with
    | nil => simp at h
    | cons c0 cs =>
      dsimp only at h
      repeat' split at h
      all_goals (try (exfalso; exact Option.noConfusion h))
      · rename_i hsp hname r2 r3 heqBrace hb0 rest5 x r6 cw tl heqBrk heqRev
        rw [Option.some.injEq, Prod.mk.injEq] at h
        obtain ⟨h1, h2⟩ := h
        rw [← h2]
        have hr3 : ∀ c ∈ r3, c ∈ l := by
          intro c hc
          have hx1 : c ∈ List.dropWhile pySpace
              (List.drop (List.takeWhile isWordCh (List.dropWhile pySpace (c0 :: cs))).length
                (List.dropWhile pySpace (c0 :: cs))) := by
            rw [heqBrace]; exact List.mem_cons_of_mem _ hc
          exact hr1 c (List.dropWhile_subset _ (List.drop_subset _ _ (List.dropWhile_subset _ hx1)))
        intro c hc
        have hx2 : c ∈ List.drop (List.takeWhile pySpace r3).length r3 := by
          rw [heqBrk]; exact List.mem_cons_of_mem _ hc
        exact hr3 c (List.drop_subset _ _ hx2)
      · rename_i hsp hname r2 r3 heqBrace hb0 x r6 heqBrk
        rw [Option.some.injEq, Prod.mk.injEq] at h
        obtain ⟨h1, h2⟩ := h
        rw [← h2]
        have hr3 : ∀ c ∈ r3, c ∈ l := by
          intro c hc
          have hx1 : c ∈ List.dropWhile pySpace
              (List.drop (List.takeWhile isWordCh (List.dropWhile pySpace (c0 :: cs))).length
                (List.dropWhile pySpace (c0 :: cs))) := by
            rw [heqBrace]; exact List.mem_cons_of_mem _ hc
          exact hr1 c (List.dropWhile_subset _ (List.drop_subset _ _ (List.dropWhile_subset _ hx1)))
        intro c hc
        have hx2 : c ∈ List.drop
            (List.takeWhile (fun c => decide (c ≠ '\x7d'))
              (List.drop (List.takeWhile pySpace r3).length r3)).length
            (List.drop (List.takeWhile pySpace r3).length r3) := by
          rw [heqBrk]; exact List.mem_cons_of_mem _ hc
        exact hr3 c (List.drop_subset _ _ (List.drop_subset _ _ hx2))

theorem blockFindAll_sub (kw : List Char) : ∀ (n : Nat) (l : List Char)
    (p : String × String), p ∈ blockFindAll kw n l → ∀ c ∈ p.2.data, c ∈ l
  | 0, l, p, hp => by simp [blockFindAll] at hp
  | _ + 1, [], p, hp => by simp [blockFindAll] at hp
  | n + 1, c :: rest, p, hp => by
    simp only [blockFindAll] at hp
    cases hm : matchBlockAt kw (c :: rest) with
    | none =>
      rw [hm] at hp
      intro c2 hc2
      exact List.mem_cons_of_mem _
        (blockFindAll_sub kw n rest p hp c2 hc2)
    | some r =>
      obtain ⟨blk, suffix⟩ := r
      obtain ⟨bnm, bbd⟩ := blk
      rw [hm] at hp
      rcases List.mem_cons.mp hp with h1 | h1
      · rw [h1]
        intro c2 hc2
        exact matchBlockAt_sub kw (c :: rest) bnm bbd suffix hm c2 hc2
      · intro c2 hc2
        exact matchBlockAt_suf kw (c :: rest) bnm bbd suffix hm c2
          (blockFindAll_sub kw n suffix p h1 c2 hc2)

theorem upsertU_mem (k' : String) (v' : UnitMeta) (k : String) (v : UnitMeta) :
    ∀ acc, (k', v') ∈ upsertU k v acc → (k', v') ∈ acc ∨ v' = v
  | [], h => by
    simp only [upsertU, List.mem_singleton, Prod.mk.injEq] at h
    exact Or.inr h.2
  | (k0, v0) :: rest, h => by
    simp only [upsertU] at h
    by_cases he : k0 = k
    · rw [if_pos he] at h
      rcases List.mem_cons.mp h with h1 | h1
      · rw [Prod.mk.injEq] at h1; exact Or.inr h1.2
      · exact Or.inl (List.mem_cons_of_mem _ h1)
    · rw [if_neg he] at h
      rcases List.mem_cons.mp h with h1 | h1
      · exact Or.inl (h1 ▸ List.mem_cons_self _ _)
      · rcases upsertU_mem k' v' k v rest h1 with h2 | h2
        · exact Or.inl (List.mem_cons_of_mem _ h2)
        · exact Or.inr h2

theorem foldlUpsertU_mem (F : (String × String) → UnitMeta) :
    ∀ (items : List (String × String)) (acc : List (String × UnitMeta))
      (k' : String) (v' : UnitMeta),
      (k', v') ∈ items.foldl (fun a p => upsertU p.1 (F p) a) acc →
      (k', v') ∈ acc ∨ ∃ p ∈ items, v' = F p
  | [], _, _, _, h => Or.inl h
  | p0 :: rest, acc, k', v', h => by
    have h2 := foldlUpsertU_mem F rest (upsertU p0.1 (F p0) acc) k' v' h
    rcases h2 with h3 | h3
    · rcases upsertU_mem k' v' p0.1 (F p0) acc h3 with h4 | h4
      · exact Or.inl h4
      · exact Or.inr ⟨p0, List.mem_cons_self _ _, h4⟩
    · obtain ⟨p, hp, he⟩ := h3
      exact Or.inr ⟨p, List.mem_cons_of_mem _ hp, he⟩

theorem parseBamlSchema_cls (out : String) (u : String)
    (fl : List (String × FieldMeta))
    (h : (u, UnitMeta.cls fl) ∈ parseBamlSchema out) :
    ∃ p ∈ blockFindAll ['c', 'l', 'a', 's', 's'] (out.data.length + 1) out.data,
      fl = fieldDictOf p.2 := by
  simp only [parseBamlSchema] at h
  have h1 := foldlUpsertU_mem (fun p => UnitMeta.enm (enumValuesOf p.2))
    (blockFindAll ['e', 'n', 'u', 'm'] (out.data.length + 1) out.data) _ u (UnitMeta.cls fl) h
  rcases h1 with h2 | h2
  · have h3 := foldlUpsertU_mem (fun p => UnitMeta.cls (fieldDictOf p.2))
      (blockFindAll ['c', 'l', 'a', 's', 's'] (out.data.length + 1) out.data) [] u
      (UnitMeta.cls fl) h2
    rcases h3 with h4 | h4
    · simp at h4
    · obtain ⟨p, hp, he⟩ := h4
      rw [UnitMeta.cls.injEq] at he
      exact ⟨p, hp, he⟩
  · obtain ⟨p, hp, he⟩ := h2
    exact absurd he (by simp)

/-- C10 counterexample: the claim quantifies over every schema text the
generator produces, but a field NAME containing a colon defeats it: the
generator accepts the input \x7b"a:b": "string"\x7d and emits the line
"  a:b string", which the extractor's field pattern does match (word
characters up to the colon), so the parsed class unit records a NON-empty
field map. -/
theorem c10_counterexample :
    okS (generateSchema (PyValue.dict [("a:b", PyValue.str ("string"))]) ("S")) =
      Option.some ("class S \x7b\n  a:b string\n\x7d") ∧
    parseBamlSchema ("class S \x7b\n  a:b string\n\x7d") =
      [("S", UnitMeta.cls [("a", ⟨"b string", false⟩)])] := by
  decide

/-- C10 amended: for every input mapping whose keys and string values are
free of colons (the intended use), and every colon-free root name, the
generated schema text contains no colon, so the extractor's field pattern
"name: type" never matches inside any class body and every class unit in
the parsed metadata carries an empty field map; enum units do retain their
members, as on the concrete enum schema shown. -/
theorem c10_amended (d : List (String × PyValue)) (root out : String)
    (hd : noColonFlds d = true) (hroot : strNoColon root = true)
    (hok : generateSchema (PyValue.dict d) root = .ok out) :
    (∀ u fl, (u, UnitMeta.cls fl) ∈ parseBamlSchema out → fl = []) ∧
    okS (generateSchema (PyValue.dict [("status", PyValue.dict
        [("type", PyValue.str ("enum")),
         ("values", PyValue.list [PyValue.str ("done!"), PyValue.str ("in-progress")])])])
        ("Task")) =
      Option.some ("enum StatusEnum \x7b\n  DONE!\n  IN_PROGRESS\n\x7d\n\n\nclass Task \x7b\n  status StatusEnum\n\x7d") ∧
    parseBamlSchema ("enum StatusEnum \x7b\n  DONE!\n  IN_PROGRESS\n\x7d\n\n\nclass Task \x7b\n  status StatusEnum\n\x7d") =
      [("Task", UnitMeta.cls []), ("StatusEnum", UnitMeta.enm ["DONE!", "IN_PROGRESS"])] := by
  refine ⟨?_, by decide, by decide⟩
  intro u fl h
  have hnc : ∀ c ∈ out.data, c ≠ ':' :=
    generateSchema_noColon d root out hd (strNoColon_chars root hroot) hok
  obtain ⟨p, hp, he⟩ := parseBamlSchema_cls out u fl h
  rw [he]
  apply fieldDictOf_nil
  intro c hc
  exact hnc c (blockFindAll_sub ['c', 'l', 'a', 's', 's'] (out.data.length + 1) out.data p hp c hc)

/-- Witness for C10 amended: the colon-free input \x7b"name": "string"\x7d
generates a schema whose only class unit parses back with an empty field
map. -/
theorem c10_witness :
    generateSchema (PyValue.dict [("name", PyValue.str ("string"))]) ("S") =
      .ok ("class S \x7b\n  name string\n\x7d") ∧
    (∀ u fl, (u, UnitMeta.cls fl) ∈
      parseBamlSchema ("class S \x7b\n  name string\n\x7d") → fl = []) :=
  ⟨rfl, (c10_amended [("name", PyValue.str ("string"))] ("S")
    ("class S \x7b\n  name string\n\x7d") (by decide) (by decide) rfl).1⟩

end DynBaml
